import Mathlib

/-
  Verification of a teaching-grade database storage stack against its
  specification: a page-file storage manager, a buffer pool with pluggable
  replacement policies (FIFO, LRU, LFU, CLOCK), a record manager and a flat
  integer-key index.

  The C sources are shallowly embedded: pages are byte lists, the disk file is
  a list of pages, the buffer pool's doubly-linked frame list is a Lean list in
  insertion order, and every C function used by a claim is translated to a pure
  Lean function on this state.  I/O itself is modelled as reliable (a seek or
  fwrite never fails at the OS level); the in-range/out-of-range checks and all
  control flow of the C code are kept.  Loops whose bound is not structural
  carry an explicit fuel argument; a fuel-indexed function returning `none`
  for every fuel is how nontermination of the corresponding C loop is stated.
-/

namespace Spec2Proof

/-- Return codes: the subset of dberror.h used by the verified modules.
`ERROR` is the catch-all `RC_ERROR` the source uses, e.g. when no evictable
frame exists. -/
inductive RC where
  | OK
  | ERROR
  | FILE_NOT_FOUND
  | FILE_HANDLE_NOT_INIT
  | WRITE_FAILED
  | READ_NON_EXISTING_PAGE
  | FILE_CLOSE_FAILED
  | PINNED_PAGES_IN_BUFFER
  | RM_NO_MORE_TUPLES
  | RM_NO_TUPLE_WITH_GIVEN_RID
  | SCAN_CONDITION_NOT_FOUND
  | INVALID_PARAMETER
  | MEMORY_ALLOCATION_ERROR
  | NULL_POINTER
  | MALLOC_FAILED
  | IM_KEY_NOT_FOUND
  | IM_NO_MORE_ENTRIES
  deriving Repr, DecidableEq

/-- PAGE_SIZE from dberror.h: fixed page size in bytes. -/
def PAGE_SIZE : Nat := 4096

/-- A page is a fixed-size byte block; bytes are naturals < 256 (the bound is
not enforced by the C type `char` either). -/
abbrev Page := List Nat

/-- A page filled with zero bytes, as produced by `memset(buf, 0, PAGE_SIZE)`
or `calloc`. -/
def zeroPage : Page := List.replicate PAGE_SIZE 0

/-- The on-disk page file: the authoritative sequence of pages. -/
abbrev Disk := List Page

/-- Decimal ASCII digits of a natural number, most significant first. -/
def decimalDigits (n : Nat) : List Nat := (Nat.toDigits 10 n).map Char.toNat

/-- The `sprintf(buf, "Page-%i", pageNum)` initialisation used by `pinPage`:
the ASCII bytes of `"Page-"`, the decimal rendering of the page number, a nul
terminator, and the zeroes of the memset buffer for the rest of the page. -/
def sprintfPage (pageNum : Int) : Page :=
  let digits := if pageNum < 0 then 45 :: decimalDigits pageNum.natAbs
                else decimalDigits pageNum.toNat
  let s := [80, 97, 103, 101, 45] ++ digits ++ [0]
  s ++ List.replicate (PAGE_SIZE - s.length) 0

/-! ## Storage manager (`storage_mgr.c`)

`SM_FileHandle` carries the page count, the advisory cursor and (through
`mgmtInfo`) the open file, here the page contents themselves. -/

structure SMFile where
  totalNumPages : Int
  curPagePos : Int
  pages : List Page
  deriving Repr, DecidableEq

/-- `openPageFile` (storage_mgr.c:145): total page count is computed from the
file size, the cursor starts at 0. -/
def openPageFile (disk : Disk) : SMFile :=
  { totalNumPages := (disk.length : Int), curPagePos := 0, pages := disk }

/-- `writeBlock` (storage_mgr.c:385): the bounds check `pageNum < 0 ||
pageNum >= fh->totalNumPages` returns `RC_READ_NON_EXISTING_PAGE`; an in-range
write replaces page `pageNum` (the seek target is `pageNum * PAGE_SIZE`) and
sets the cursor to `pageNum`.  The `RC_WRITE_FAILED` paths are OS-level
seek/fwrite failures, which the reliable-I/O model does not produce. -/
def writeBlock (pageNum : Int) (fh : SMFile) (memPage : Page) : RC × SMFile :=
  if pageNum < 0 ∨ fh.totalNumPages ≤ pageNum then
    (RC.READ_NON_EXISTING_PAGE, fh)
  else
    (RC.OK, { fh with pages := fh.pages.set pageNum.toNat memPage,
                      curPagePos := pageNum })

/-- `readBlock` (storage_mgr.c:232): validate, then read page `pageNum` and
move the cursor there.  Returns the bytes read alongside the handle. -/
def readBlock (pageNum : Int) (fh : SMFile) : RC × SMFile × Page :=
  if pageNum < 0 ∨ fh.totalNumPages ≤ pageNum then
    (RC.READ_NON_EXISTING_PAGE, fh, zeroPage)
  else
    (RC.OK, { fh with curPagePos := pageNum }, fh.pages.getD pageNum.toNat zeroPage)

/-- `appendEmptyBlock` (storage_mgr.c:438): append one zero-filled page and
bump the page count. -/
def appendEmptyBlock (fh : SMFile) : RC × SMFile :=
  (RC.OK, { fh with pages := fh.pages ++ [zeroPage],
                    totalNumPages := fh.totalNumPages + 1 })

/-- `ensureCapacity` (storage_mgr.c:479): reject `numPages <= 0`, do nothing if
the file is already large enough, else append the missing pages (zero-filled,
in one batched write) and set the count to `numPages`. -/
def ensureCapacity (numPages : Int) (fh : SMFile) : RC × SMFile :=
  if numPages ≤ 0 then (RC.READ_NON_EXISTING_PAGE, fh)
  else if numPages ≤ fh.totalNumPages then (RC.OK, fh)
  else
    (RC.OK, { fh with
      pages := fh.pages ++ List.replicate (numPages - fh.totalNumPages).toNat zeroPage,
      totalNumPages := numPages })

end Spec2Proof

namespace Spec2Proof

/-! ## Buffer manager (`buffer_mgr.c`) -/

/-- `ReplacementStrategy` from buffer_mgr.h.  `LRU_K` is declared but not
implemented by the source (`pinPage` just prints a message). -/
inductive Strategy where
  | FIFO
  | LRU
  | LFU
  | CLOCK
  | LRU_K
  deriving Repr, DecidableEq

/-- One `DLNode` frame of the pool (buffer_mgr.c:9).  The position in the
pool's frame list plays the role of the node pointer: nodes are only ever
appended or updated in place, so positions are stable.  `pinCount` is a `Nat`
because the C `int` is only incremented, compared with 0 and decremented under
a `> 0` guard. -/
structure Frame where
  data : Page
  pageNum : Int
  isDirty : Bool
  pinCount : Nat
  accessCount : Nat
  lastAccessed : Nat
  deriving Repr, DecidableEq

/-- The placeholder a failed list lookup returns; reachable code never needs
it (all lookups are in range). -/
def noFrame : Frame :=
  { data := [], pageNum := -1, isDirty := false, pinCount := 0,
    accessCount := 0, lastAccessed := 0 }

instance : Inhabited Frame := ⟨noFrame⟩

/-- `BufferPoolMetadata` (buffer_mgr.c:24) together with the strategy stored
in `BM_BufferPool`.  `frames` is the head→tail linked list in insertion order
(`numFramesUsed = frames.length`); `fifoHead` is the index the FIFO head
pointer designates (`none` = NULL). -/
structure BufferPool where
  frames : List Frame
  fifoHead : Option Nat
  totalFrames : Nat
  readCount : Nat
  writeCount : Nat
  clockHand : Nat
  globalTimer : Nat
  strategy : Strategy
  deriving Repr, DecidableEq

/-- `initBufferPool` (buffer_mgr.c:257). -/
def initBufferPool (numPages : Nat) (strategy : Strategy) : BufferPool :=
  { frames := [], fifoHead := none, totalFrames := numPages, readCount := 0,
    writeCount := 0, clockHand := 0, globalTimer := 0, strategy := strategy }

/-- `findPage` (buffer_mgr.c:61): index of the first frame holding `pageNum`. -/
def findPage (frames : List Frame) (pageNum : Int) : Option Nat :=
  frames.findIdx? (fun f => f.pageNum == pageNum)

/-- A `writeBlock` whose return code the caller discards (the eviction
write-back at buffer_mgr.c:595, the flush at :342 and `forcePage`): the
out-of-range case leaves the file unchanged. -/
def writeBlockIgnored (disk : Disk) (pageNum : Int) (data : Page) : Disk :=
  if pageNum < 0 ∨ (disk.length : Int) ≤ pageNum then disk
  else disk.set pageNum.toNat data

/-- The search cycle of `replaceFIFO` (buffer_mgr.c:92): at most one full turn
(`fuel` starts at the list length) looking for an unpinned frame, advancing
with the NULL→head wraparound of the linked list. -/
def fifoWalk (frames : List Frame) (n : Nat) : Nat → Nat → Option Nat
  | _, 0 => none
  | idx, fuel + 1 =>
    if (frames.getD idx noFrame).pinCount = 0 then some idx
    else fifoWalk frames n ((idx + 1) % n) fuel

/-- `replaceFIFO` (buffer_mgr.c:79): start at the FIFO head (initialised to
the list head when NULL — a mutation that persists even on failure); on
success the FIFO head moves past the victim. -/
def replaceFIFO (p : BufferPool) : Option Nat × BufferPool :=
  let n := p.frames.length
  let start := p.fifoHead.getD 0
  let p1 := { p with fifoHead := some start }
  match fifoWalk p1.frames n start n with
  | some idx => (some idx, { p1 with fifoHead := some ((idx + 1) % n) })
  | none => (none, p1)

/-- `replaceLRU` (buffer_mgr.c:127): the unpinned frame with the smallest
`lastAccessed`; the comparison is strict, so the first such frame in list
order wins ties.  `minAccess` starts at `globalTimer + 1`. -/
def replaceLRU (p : BufferPool) : Option Nat :=
  (p.frames.enum.foldl
    (fun acc pr =>
      if pr.2.pinCount = 0 ∧ pr.2.lastAccessed < acc.2 then (some pr.1, pr.2.lastAccessed)
      else acc)
    ((none : Option Nat), p.globalTimer + 1)).1

/-- `replaceLFU` (buffer_mgr.c:151): smallest `accessCount` among unpinned
frames, ties broken by smaller `lastAccessed` (the running minimum count is
not updated in the tie branch, exactly as in the source). -/
def replaceLFU (p : BufferPool) : Option Nat :=
  (p.frames.enum.foldl
    (fun (acc : Option Nat × Nat × Nat) pr =>
      if pr.2.pinCount = 0 then
        match acc.1 with
        | none => (some pr.1, pr.2.accessCount, pr.2.lastAccessed)
        | some _ =>
          if pr.2.accessCount < acc.2.1 then (some pr.1, pr.2.accessCount, pr.2.lastAccessed)
          else if pr.2.accessCount = acc.2.1 ∧ pr.2.lastAccessed < acc.2.2 then
            (some pr.1, acc.2.1, pr.2.lastAccessed)
          else acc
      else acc)
    ((none : Option Nat), 0, 0)).1

/-- The `while (true)` loop of `replaceCLOCK` (buffer_mgr.c:216), fuel-indexed:
`none` means the loop has not returned within `fuel` steps.  The C loop has no
exit that returns NULL, so `none` for every fuel is nontermination of the C
code.  Arguments: frames, clock hand, current index, fuel. -/
def clockLoop (totalFrames : Nat) : List Frame → Nat → Nat → Nat → Option (Nat × List Frame × Nat)
  | _, _, _, 0 => none
  | frames, hand, idx, fuel + 1 =>
    let f := frames.getD idx noFrame
    if f.pinCount = 0 ∧ f.accessCount = 0 then
      some (idx, frames, (hand + 1) % totalFrames)
    else
      let frames' := if f.accessCount > 0 then frames.set idx { f with accessCount := 0 } else frames
      clockLoop totalFrames frames' ((hand + 1) % totalFrames) ((idx + 1) % frames.length) fuel

/-- `replaceCLOCK` (buffer_mgr.c:197): position the cursor `clockHand` steps
from the head (with the NULL→head wraparound this is index
`clockHand % length`), then run the second-chance loop. -/
def replaceCLOCK (fuel : Nat) (p : BufferPool) : Option (Option Nat × BufferPool) :=
  match clockLoop p.totalFrames p.frames p.clockHand (p.clockHand % p.frames.length) fuel with
  | some (idx, frames', hand') =>
    some (some idx, { p with frames := frames', clockHand := hand' })
  | none => none

/-- `pinPage` (buffer_mgr.c:456).  Result `none` means the CLOCK victim search
did not terminate within `fuel` (the only loop in the function without a
bound); otherwise `some (rc, disk', pool')`.  The page handle the C function
fills points into the frame that holds `pageNum` in the result pool. -/
def pinPage (fuel : Nat) (disk : Disk) (p : BufferPool) (pageNum : Int) :
    Option (RC × Disk × BufferPool) :=
  match findPage p.frames pageNum with
  | some i =>
    -- page resident: bump pin count, access count and LRU timestamp
    let f := p.frames.getD i noFrame
    let timer := p.globalTimer + 1
    some (RC.OK, disk,
      { p with
        frames := p.frames.set i
          { f with pinCount := f.pinCount + 1, accessCount := f.accessCount + 1,
                   lastAccessed := timer },
        globalTimer := timer })
  | none =>
    if p.frames.length < p.totalFrames then
      -- free frame available: zero a fresh buffer, ensure capacity, read
      let fh0 := openPageFile disk
      let ens := ensureCapacity (pageNum + 1) fh0
      if ens.1 ≠ RC.OK then some (ens.1, disk, p)
      else
        let fh1 := ens.2
        let readRes := readBlock pageNum fh1
        let newData : Page :=
          if pageNum < fh1.totalNumPages then
            (if readRes.1 = RC.OK then readRes.2.2 else sprintfPage pageNum)
          else sprintfPage pageNum
        let timer := p.globalTimer + 1
        let newFrame : Frame :=
          { data := newData, pageNum := pageNum, isDirty := false, pinCount := 1,
            accessCount := 1, lastAccessed := timer }
        let fifoHead' := match p.fifoHead with
          | none => some p.frames.length
          | some h => some h
        some (RC.OK, fh1.pages,
          { p with frames := p.frames ++ [newFrame], fifoHead := fifoHead',
                   globalTimer := timer, readCount := p.readCount + 1 })
    else
      -- pool full: pick a victim with the configured strategy
      let repl : Option (Option Nat × BufferPool) :=
        match p.strategy with
        | Strategy.FIFO => let r := replaceFIFO p; some (r.1, r.2)
        | Strategy.LRU => some (replaceLRU p, p)
        | Strategy.CLOCK => replaceCLOCK fuel p
        | Strategy.LRU_K => some (none, p)
        | Strategy.LFU => some (replaceLFU p, p)
      match repl with
      | none => none
      | some (none, p1) => some (RC.ERROR, disk, p1)
      | some (some vidx, p1) =>
        let victim := p1.frames.getD vidx noFrame
        if victim.pinCount > 0 then some (RC.ERROR, disk, p1)
        else
          -- dirty victim: write back first (the writeBlock result is ignored)
          let dw : Disk × BufferPool :=
            if victim.isDirty then
              (writeBlockIgnored disk victim.pageNum victim.data,
               { p1 with writeCount := p1.writeCount + 1 })
            else (disk, p1)
          let disk1 := dw.1
          -- memset(victim->data, 0, PAGE_SIZE)
          let p3 := { dw.2 with frames := dw.2.frames.set vidx { victim with data := zeroPage } }
          let fh0 := openPageFile disk1
          let ens := ensureCapacity (pageNum + 1) fh0
          if ens.1 ≠ RC.OK then some (ens.1, disk1, p3)
          else
            let fh1 := ens.2
            let readRes := readBlock pageNum fh1
            let newData : Page :=
              if pageNum < fh1.totalNumPages then
                (if readRes.1 = RC.OK then readRes.2.2 else sprintfPage pageNum)
              else sprintfPage pageNum
            let timer := p3.globalTimer + 1
            -- buffer_mgr.c:633-638: accessCount is deliberately NOT reset
            let victim' : Frame :=
              { data := newData, pageNum := pageNum, isDirty := false, pinCount := 1,
                accessCount := victim.accessCount, lastAccessed := timer }
            some (RC.OK, fh1.pages,
              { p3 with frames := p3.frames.set vidx victim',
                        globalTimer := timer, readCount := p3.readCount + 1 })

/-- `unpinPage` (buffer_mgr.c:391): find the handle's page, decrement a
positive pin count, otherwise `RC_ERROR`. -/
def unpinPage (p : BufferPool) (pageNum : Int) : RC × BufferPool :=
  match findPage p.frames pageNum with
  | some i =>
    let f := p.frames.getD i noFrame
    if f.pinCount > 0 then
      (RC.OK, { p with frames := p.frames.set i { f with pinCount := f.pinCount - 1 } })
    else (RC.ERROR, p)
  | none => (RC.ERROR, p)

/-- `markDirty` (buffer_mgr.c:363). -/
def markDirty (p : BufferPool) (pageNum : Int) : RC × BufferPool :=
  match findPage p.frames pageNum with
  | some i =>
    let f := p.frames.getD i noFrame
    (RC.OK, { p with frames := p.frames.set i { f with isDirty := true } })
  | none => (RC.ERROR, p)

/-- `forcePage` (buffer_mgr.c:419): write the frame unconditionally (the
`writeBlock` result is discarded), clear its dirty flag, count the write. -/
def forcePage (disk : Disk) (p : BufferPool) (pageNum : Int) : RC × Disk × BufferPool :=
  match findPage p.frames pageNum with
  | some i =>
    let f := p.frames.getD i noFrame
    (RC.OK, writeBlockIgnored disk f.pageNum f.data,
     { p with frames := p.frames.set i { f with isDirty := false },
              writeCount := p.writeCount + 1 })
  | none => (RC.ERROR, disk, p)

/-- The frame sweep of `forceFlushPool` (buffer_mgr.c:335): write every dirty
unpinned frame back (write result discarded), clear its dirty flag, count one
write per page written. -/
def flushFrames (disk : Disk) : List Frame → Disk × Nat × List Frame
  | [] => (disk, 0, [])
  | f :: fs =>
    if f.isDirty ∧ f.pinCount = 0 then
      let disk1 := writeBlockIgnored disk f.pageNum f.data
      let rest := flushFrames disk1 fs
      (rest.1, rest.2.1 + 1, { f with isDirty := false } :: rest.2.2)
    else
      let rest := flushFrames disk fs
      (rest.1, rest.2.1, f :: rest.2.2)

/-- `forceFlushPool` (buffer_mgr.c:329). -/
def forceFlushPool (disk : Disk) (p : BufferPool) : RC × Disk × BufferPool :=
  let res := flushFrames disk p.frames
  (RC.OK, res.1, { p with frames := res.2.2, writeCount := p.writeCount + res.2.1 })

/-- The teardown loop of `shutdownBufferPool` (buffer_mgr.c:299): free frames
from the head until a pinned one is met; the pinned frame and everything
after it survive (the C loop returns right there, leaving them allocated). -/
def releaseFrames : List Frame → RC × List Frame
  | [] => (RC.OK, [])
  | f :: fs =>
    if f.pinCount > 0 then (RC.PINNED_PAGES_IN_BUFFER, f :: fs)
    else releaseFrames fs

/-- `shutdownBufferPool` (buffer_mgr.c:291): flush, then tear down until a
pinned frame is found. -/
def shutdownBufferPool (disk : Disk) (p : BufferPool) : RC × Disk × BufferPool :=
  let fl := forceFlushPool disk p
  let rel := releaseFrames fl.2.2.frames
  (rel.1, fl.2.1, { fl.2.2 with frames := rel.2 })

end Spec2Proof

namespace Spec2Proof

/-! ## Claim C8: writeBlock error and success behaviour -/

/-- C8 counterexample: the claim says an out-of-range `write_block` fails with
`WriteFailed`; on the one-page file, `writeBlock 5` returns
`RC_READ_NON_EXISTING_PAGE`, which is not `RC_WRITE_FAILED`. -/
theorem C8_writeBlock_out_of_range_code :
    (writeBlock 5 (openPageFile [zeroPage]) zeroPage).1 = RC.READ_NON_EXISTING_PAGE ∧
    (writeBlock 5 (openPageFile [zeroPage]) zeroPage).1 ≠ RC.WRITE_FAILED := by
  constructor
  · rfl
  · decide

/-- C8 (amended): `writeBlock n` fails with `ReadNonExistingPage` (not
`WriteFailed`) and leaves the handle unchanged when `n` is out of range; on an
in-range `n` it succeeds, replaces exactly page `n` (which sits at byte offset
`n * PAGE_SIZE`), leaves every other page unchanged, and sets the cursor
to `n`. -/
theorem C8_writeBlock_spec (n : Int) (fh : SMFile) (buf : Page) :
    ((n < 0 ∨ fh.totalNumPages ≤ n) →
       writeBlock n fh buf = (RC.READ_NON_EXISTING_PAGE, fh)) ∧
    ((0 ≤ n ∧ n < fh.totalNumPages) →
       (writeBlock n fh buf).1 = RC.OK ∧
       (writeBlock n fh buf).2.pages = fh.pages.set n.toNat buf ∧
       (writeBlock n fh buf).2.curPagePos = n ∧
       (writeBlock n fh buf).2.totalNumPages = fh.totalNumPages ∧
       (∀ m : Nat, m ≠ n.toNat →
          (writeBlock n fh buf).2.pages.getD m zeroPage = fh.pages.getD m zeroPage)) := by
  constructor
  · intro h
    simp [writeBlock, h]
  · rintro ⟨h0, h1⟩
    have hcond : ¬ (n < 0 ∨ fh.totalNumPages ≤ n) := by
      push_neg
      exact ⟨by omega, by omega⟩
    refine ⟨by simp [writeBlock, hcond], by simp [writeBlock, hcond], by simp [writeBlock, hcond],
      by simp [writeBlock, hcond], ?_⟩
    intro m hm
    simp only [writeBlock, hcond, if_false]
    rcases Nat.lt_or_ge m fh.pages.length with hlt | hge
    · simp [List.getD, List.getElem?_set_ne (Ne.symm hm)]
    · have h2 : (fh.pages.set n.toNat buf).length ≤ m := by simpa using hge
      simp [List.getD, List.getElem?_eq_none h2,
        List.getElem?_eq_none (show fh.pages.length ≤ m from hge)]

/-- C8 witness: the amended theorem applied to the concrete one-page file with
`n = 0`. -/
theorem C8_writeBlock_spec_witness :
    (0 : Int) ≤ 0 ∧ (0 : Int) < (openPageFile [zeroPage]).totalNumPages ∧
    (writeBlock 0 (openPageFile [zeroPage]) (List.replicate PAGE_SIZE 7)).1 = RC.OK := by
  refine ⟨le_refl 0, by decide, ?_⟩
  exact ((C8_writeBlock_spec 0 (openPageFile [zeroPage]) (List.replicate PAGE_SIZE 7)).2
    ⟨by decide, by decide⟩).1

/-! ## Claim C3: CLOCK second-chance scenario -/

/-- Pin a page and, if that succeeded, unpin it again: the "load" step of the
spec's CLOCK scenario. -/
def pinUnpin (fuel : Nat) (d : Disk) (p : BufferPool) (n : Int) : Option (Disk × BufferPool) :=
  match pinPage fuel d p n with
  | some (RC.OK, d', p') => some (d', (unpinPage p' n).2)
  | _ => none

/-- Scenario 3 of the spec, run on the embedded code: a CLOCK pool of
capacity 3 over a freshly created one-page file; load pages 1, 2, 3
(pin + unpin each), then pin page 4. -/
def clockScenario : Option (Disk × BufferPool) := do
  let s1 ← pinUnpin 10 [zeroPage] (initBufferPool 3 Strategy.CLOCK) 1
  let s2 ← pinUnpin 10 s1.1 s1.2 2
  let s3 ← pinUnpin 10 s2.1 s2.2 3
  match pinPage 10 s3.1 s3.2 4 with
  | some (RC.OK, d, p) => some (d, p)
  | _ => none

/-- The intermediate state (after loading 1, 2, 3) of the CLOCK scenario:
needed to check the claim's preconditions. -/
def clockScenarioMid : Option (Disk × BufferPool) := do
  let s1 ← pinUnpin 10 [zeroPage] (initBufferPool 3 Strategy.CLOCK) 1
  let s2 ← pinUnpin 10 s1.1 s1.2 2
  pinUnpin 10 s2.1 s2.2 3

/-- C3: in the capacity-3 CLOCK pool, after loading pages 1, 2 and 3 (each
resident with `accessCount = 1`, pin count 0, clock hand at 0), pinning
page 4 sweeps the hand over all three frames clearing their access bits,
wraps, evicts page 1, and leaves the frames as [4, 2, 3] in insertion order
with the clock hand at position 1. -/
theorem C3_clock_second_chance :
    (clockScenarioMid.map (fun s =>
        (s.2.frames.map Frame.pageNum, s.2.frames.map Frame.accessCount,
         s.2.frames.map Frame.pinCount, s.2.clockHand))) =
      some ([1, 2, 3], [1, 1, 1], [0, 0, 0], 0) ∧
    (clockScenario.map (fun s => (s.2.frames.map Frame.pageNum, s.2.clockHand))) =
      some ([4, 2, 3], 1) := by
  constructor
  · decide
  · decide

/-! ## Claim C7: pinning a page beyond the file extent -/

/-- C7 counterexample: pin page 1 into an empty one-frame pool over a one-page
file.  The file is extended, but the frame's buffer is the zero page read back
from the extension — not the literal `"Page-1"` bytes the claim requires
(shown on the first six bytes: all zero versus `P a g e - 1`). -/
theorem C7_pin_beyond_extent_code :
    ((pinPage 0 [zeroPage] (initBufferPool 1 Strategy.LRU) 1).map
        (fun r => (r.1, r.2.1.length, r.2.2.frames.map (fun f => f.data.take 6)))) =
      some (RC.OK, 2, [List.replicate 6 0]) ∧
    (sprintfPage 1).take 6 = [80, 97, 103, 101, 45, 49] ∧
    (List.replicate 6 0 : List Nat) ≠ [80, 97, 103, 101, 45, 49] := by
  refine ⟨by decide, by decide, by decide⟩

/-- Auxiliary: `findPage` misses when no frame holds the page. -/
theorem findPage_eq_none {frames : List Frame} {n : Int}
    (h : ∀ f ∈ frames, f.pageNum ≠ n) : findPage frames n = none := by
  induction frames with
  | nil => rfl
  | cons f fs ih =>
    have hf : (f.pageNum == n) = false := by
      simpa using h f (by simp)
    have ht : findPage fs n = none := ih (fun g hg => h g (by simp [hg]))
    simp only [findPage, List.findIdx?_cons, hf, cond_false] at ht ⊢
    simp [ht]

/-- C7 (amended): pinning a page `n` beyond the current file extent while the
pool is not full succeeds, extends the file to `n + 1` pages with zero-filled
pages, and initialises the frame's buffer with the *zero page read back from
the extended file* — the whole buffer is zero.  (The `"Page-<n>"` literal in
the source is dead code on this path: `ensureCapacity(pageNum + 1)` runs
first, so the subsequent read is always in range and succeeds.) -/
theorem C7_pin_beyond_extent_amended (fuel : Nat) (disk : Disk) (p : BufferPool) (n : Int)
    (hmiss : ∀ f ∈ p.frames, f.pageNum ≠ n)
    (hroom : p.frames.length < p.totalFrames)
    (hbeyond : (disk.length : Int) ≤ n) :
    pinPage fuel disk p n =
      some (RC.OK, disk ++ List.replicate (n.toNat + 1 - disk.length) zeroPage,
        { p with
          frames := p.frames ++
            [{ data := zeroPage, pageNum := n, isDirty := false, pinCount := 1,
               accessCount := 1, lastAccessed := p.globalTimer + 1 }],
          fifoHead := some (p.fifoHead.getD p.frames.length),
          globalTimer := p.globalTimer + 1,
          readCount := p.readCount + 1 }) := by
  have h0 : 0 ≤ n := le_trans (by positivity) hbeyond
  have hne : ¬ n + 1 ≤ 0 := by omega
  have hgt : ¬ n + 1 ≤ ((disk.length : Int)) := by omega
  have hlt : n < n + 1 := by omega
  have hv1 : ¬ n < 0 := by omega
  have hv2 : ¬ (n + 1 : Int) ≤ n := by omega
  have hk : (n + 1 - (disk.length : Int)).toNat = n.toNat + 1 - disk.length := by omega
  have hgetD : ((disk ++ List.replicate (n.toNat + 1 - disk.length) zeroPage)[n.toNat]?).getD
      zeroPage = zeroPage := by
    have h1 : disk.length ≤ n.toNat := by omega
    rw [List.getElem?_append_right h1, List.getElem?_replicate, if_pos (by omega)]
    rfl
  obtain ⟨frames, fifoHead, totalFrames, rCount, wCount, cHand, gTimer, strat⟩ := p
  simp only [List.mem_cons] at hmiss
  cases fifoHead <;>
    simp [pinPage, findPage_eq_none (by simpa using hmiss), ensureCapacity, openPageFile,
      readBlock, hroom, hne, hgt, hlt, hv1, hv2, hk, hgetD]

/-- C7 witness: the amended theorem applied to pinning page 1 into an empty
one-frame pool over a one-page file. -/
theorem C7_pin_beyond_extent_amended_witness :
    ((initBufferPool 1 Strategy.LRU).frames.length < (initBufferPool 1 Strategy.LRU).totalFrames) ∧
    ((([zeroPage] : Disk).length : Int) ≤ 1) ∧
    pinPage 0 [zeroPage] (initBufferPool 1 Strategy.LRU) 1 =
      some (RC.OK, [zeroPage, zeroPage],
        { frames := [{ data := zeroPage, pageNum := 1, isDirty := false, pinCount := 1,
                       accessCount := 1, lastAccessed := 1 }],
          fifoHead := some 0, totalFrames := 1, readCount := 1, writeCount := 0,
          clockHand := 0, globalTimer := 1, strategy := Strategy.LRU }) :=
  ⟨by decide, by decide,
   C7_pin_beyond_extent_amended 0 [zeroPage] (initBufferPool 1 Strategy.LRU) 1
     (by intro f hf; simp [initBufferPool] at hf) (by decide) (by decide)⟩

/-! ## Claim C1: full pool with every frame pinned -/

/-- Auxiliary: the FIFO search cycle finds nothing when every frame is
pinned. -/
theorem fifoWalk_eq_none {frames : List Frame} (hp : ∀ f ∈ frames, 0 < f.pinCount) :
    ∀ (fuel idx : Nat), idx < frames.length →
      fifoWalk frames frames.length idx fuel = none := by
  intro fuel
  induction fuel with
  | zero => intro idx _; rfl
  | succ k ih =>
    intro idx hidx
    have hmem : frames.getD idx noFrame ∈ frames := by
      simp only [List.getD_eq_getElem?_getD, List.getElem?_eq_getElem hidx, Option.getD_some]
      exact List.getElem_mem hidx
    have hpin := hp _ hmem
    rw [fifoWalk, if_neg (by omega)]
    exact ih _ (Nat.mod_lt _ (by omega))

/-- Auxiliary: a fold whose step function fixes every accumulator is the
identity. -/
theorem foldl_fixed {α β : Type} (g : β → α → β) (l : List α) (acc : β)
    (h : ∀ a ∈ l, ∀ b, g b a = b) : l.foldl g acc = acc := by
  induction l generalizing acc with
  | nil => rfl
  | cons x xs ih =>
    rw [List.foldl_cons, h x (by simp)]
    exact ih acc (fun a ha b => h a (by simp [ha]) b)

/-- Auxiliary: the LRU scan returns no victim when every frame is pinned. -/
theorem replaceLRU_eq_none {p : BufferPool} (hp : ∀ f ∈ p.frames, 0 < f.pinCount) :
    replaceLRU p = none := by
  rw [replaceLRU, foldl_fixed]
  intro a ha b
  have hmem : a.2 ∈ p.frames := by
    have h1 := List.mem_enum_iff_getElem?.mp ha
    exact List.getElem?_mem h1
  have hpin := hp _ hmem
  rw [if_neg]
  rintro ⟨h0, -⟩
  omega

/-- Auxiliary: the LFU scan returns no victim when every frame is pinned. -/
theorem replaceLFU_eq_none {p : BufferPool} (hp : ∀ f ∈ p.frames, 0 < f.pinCount) :
    replaceLFU p = none := by
  rw [replaceLFU, foldl_fixed]
  intro a ha b
  have hmem : a.2 ∈ p.frames := by
    have h1 := List.mem_enum_iff_getElem?.mp ha
    exact List.getElem?_mem h1
  have hpin := hp _ hmem
  rw [if_neg (by omega)]

/-- Auxiliary: the CLOCK loop never returns while every frame is pinned —
clearing access bits does not unpin anything, so each step recurses with a
pool that is still fully pinned. -/
theorem clockLoop_eq_none :
    ∀ (fuel tf : Nat) (frames : List Frame) (hand idx : Nat),
      (∀ f ∈ frames, 0 < f.pinCount) → idx < frames.length →
      clockLoop tf frames hand idx fuel = none := by
  intro fuel
  induction fuel with
  | zero => intros; rfl
  | succ k ih =>
    intro tf frames hand idx hp hidx
    have hmem : frames.getD idx noFrame ∈ frames := by
      simp only [List.getD_eq_getElem?_getD, List.getElem?_eq_getElem hidx, Option.getD_some]
      exact List.getElem_mem hidx
    have hpin := hp _ hmem
    rw [clockLoop, if_neg (by rintro ⟨h0, -⟩; omega)]
    by_cases hacc : (frames.getD idx noFrame).accessCount > 0
    · rw [if_pos hacc]
      refine ih tf _ _ _ ?_ ?_
      · intro f hf
        rcases List.mem_or_eq_of_mem_set hf with hl | he
        · exact hp _ hl
        · subst he; exact hpin
      · simpa using Nat.mod_lt _ (by omega)
    · rw [if_neg hacc]
      exact ih tf _ _ _ hp (Nat.mod_lt _ (by omega))

/-- C1 (the code has a bug here): on a full pool in which every frame is
pinned, with the target page not resident, the FIFO, LRU and LFU policies
terminate with no victim and `pinPage` fails with `RC_ERROR`; but the CLOCK
victim search never returns — for every fuel the fuel-indexed loop is still
running, so the C `while (true)` in `replaceCLOCK` (buffer_mgr.c:216) does
not terminate and `pinPage` hangs instead of failing. -/
theorem C1_full_pinned_pool (disk : Disk) (p : BufferPool) (target : Int)
    (hfull : p.frames.length = p.totalFrames)
    (hpos : 0 < p.totalFrames)
    (hpinned : ∀ f ∈ p.frames, 0 < f.pinCount)
    (hmiss : ∀ f ∈ p.frames, f.pageNum ≠ target)
    (hstart : p.fifoHead.getD 0 < p.frames.length) :
    ((pinPage 0 disk { p with strategy := Strategy.FIFO } target).map (fun r => r.1) =
       some RC.ERROR) ∧
    ((pinPage 0 disk { p with strategy := Strategy.LRU } target).map (fun r => r.1) =
       some RC.ERROR) ∧
    ((pinPage 0 disk { p with strategy := Strategy.LFU } target).map (fun r => r.1) =
       some RC.ERROR) ∧
    (∀ fuel, pinPage fuel disk { p with strategy := Strategy.CLOCK } target = none) := by
  have hnoroom : ¬ p.frames.length < p.totalFrames := by omega
  refine ⟨?_, ?_, ?_, ?_⟩
  · rw [pinPage, findPage_eq_none hmiss]
    simp only [hnoroom, if_false]
    have hw : fifoWalk p.frames p.frames.length (p.fifoHead.getD 0) p.frames.length = none :=
      fifoWalk_eq_none hpinned _ _ hstart
    simp [replaceFIFO, hw]
  · rw [pinPage, findPage_eq_none hmiss]
    simp only [hnoroom, if_false]
    have hl : replaceLRU { p with strategy := Strategy.LRU } = none := replaceLRU_eq_none hpinned
    simp [hl]
  · rw [pinPage, findPage_eq_none hmiss]
    simp only [hnoroom, if_false]
    have hl : replaceLFU { p with strategy := Strategy.LFU } = none := replaceLFU_eq_none hpinned
    simp [hl]
  · intro fuel
    rw [pinPage, findPage_eq_none hmiss]
    simp only [hnoroom, if_false]
    have hc : replaceCLOCK fuel { p with strategy := Strategy.CLOCK } = none := by
      rw [replaceCLOCK, clockLoop_eq_none fuel _ _ _ _ hpinned (Nat.mod_lt _ (by omega))]
    simp [hc]

/-- Concrete fully-pinned one-frame pool used as the C1 failing input. -/
def pinnedPool1 : BufferPool :=
  { frames := [{ data := zeroPage, pageNum := 0, isDirty := false, pinCount := 1,
                 accessCount := 1, lastAccessed := 1 }],
    fifoHead := some 0, totalFrames := 1, readCount := 1, writeCount := 0,
    clockHand := 0, globalTimer := 1, strategy := Strategy.CLOCK }

/-- C1 witness: the theorem applied to the one-frame CLOCK pool whose only
frame holds page 0 with pin count 1, pinning page 1; the CLOCK part is
instantiated at fuel 5. -/
theorem C1_full_pinned_pool_witness :
    pinnedPool1.frames.length = pinnedPool1.totalFrames ∧
    (∀ f ∈ pinnedPool1.frames, 0 < f.pinCount) ∧
    ((pinPage 0 [zeroPage] { pinnedPool1 with strategy := Strategy.FIFO } 1).map
       (fun r => r.1) = some RC.ERROR) ∧
    pinPage 5 [zeroPage] { pinnedPool1 with strategy := Strategy.CLOCK } 1 = none := by
  have h := C1_full_pinned_pool [zeroPage] pinnedPool1 1 (by decide) (by decide)
    (by intro f hf; simp [pinnedPool1] at hf; simp [hf])
    (by intro f hf; simp [pinnedPool1] at hf; simp [hf])
    (by decide)
  exact ⟨by decide, by intro f hf; simp [pinnedPool1] at hf; simp [hf], h.1, h.2.2.2 5⟩

/-! ## Claim C2: shutdown with pinned frames -/

/-- Auxiliary: the ignored write leaves the file length alone. -/
theorem writeBlockIgnored_length (disk : Disk) (n : Int) (d : Page) :
    (writeBlockIgnored disk n d).length = disk.length := by
  rw [writeBlockIgnored]
  split <;> simp

/-- Auxiliary: the ignored write does not touch other indices. -/
theorem writeBlockIgnored_getElem?_ne (disk : Disk) (n : Int) (d : Page) (m : Nat)
    (h : n.toNat ≠ m) : (writeBlockIgnored disk n d)[m]? = disk[m]? := by
  rw [writeBlockIgnored]
  split
  · rfl
  · exact List.getElem?_set_ne h

/-- Auxiliary: the flush sweep leaves the file length alone. -/
theorem flushFrames_length (disk : Disk) (l : List Frame) :
    ((flushFrames disk l).1).length = disk.length := by
  induction l generalizing disk with
  | nil => rfl
  | cons f fs ih =>
    rw [flushFrames]
    split
    · rw [ih, writeBlockIgnored_length]
    · exact ih disk

/-- Auxiliary: a pinned frame passes through the flush sweep unchanged (the
sweep only touches dirty frames with pin count 0). -/
theorem mem_flushFrames_of_pinned {f : Frame} {l : List Frame} (disk : Disk)
    (hf : f ∈ l) (hpin : 0 < f.pinCount) : f ∈ (flushFrames disk l).2.2 := by
  induction l generalizing disk with
  | nil => cases hf
  | cons g gs ih =>
    rw [flushFrames]
    rcases List.mem_cons.mp hf with rfl | htail
    · split
      · rename_i hcond
        omega
      · exact List.mem_cons_self _ _
    · split
      · exact List.mem_cons_of_mem _ (ih _ htail)
      · exact List.mem_cons_of_mem _ (ih _ htail)

/-- Auxiliary: a pinned frame survives the teardown loop (the loop stops at
the first pinned frame it meets). -/
theorem mem_releaseFrames_of_pinned {f : Frame} {l : List Frame}
    (hf : f ∈ l) (hpin : 0 < f.pinCount) : f ∈ (releaseFrames l).2 := by
  induction l with
  | nil => cases hf
  | cons g gs ih =>
    rw [releaseFrames]
    rcases List.mem_cons.mp hf with rfl | htail
    · rw [if_pos hpin]
      exact List.mem_cons_self _ _
    · split
      · exact List.mem_cons_of_mem _ htail
      · exact ih htail

/-- Auxiliary: the teardown loop reports `RC_PINNED_PAGES_IN_BUFFER` whenever
some frame is still pinned. -/
theorem releaseFrames_rc {l : List Frame} (h : ∃ f ∈ l, 0 < f.pinCount) :
    (releaseFrames l).1 = RC.PINNED_PAGES_IN_BUFFER := by
  induction l with
  | nil => obtain ⟨f, hf, -⟩ := h; cases hf
  | cons g gs ih =>
    rw [releaseFrames]
    by_cases hg : 0 < g.pinCount
    · rw [if_pos hg]
    · rw [if_neg hg]
      obtain ⟨f, hf, hpin⟩ := h
      rcases List.mem_cons.mp hf with rfl | htail
      · omega
      · exact ih ⟨f, htail, hpin⟩

/-- Auxiliary: the flush sweep does not touch a disk index owned by no frame
of the list. -/
theorem flushFrames_getElem?_untouched (disk : Disk) (l : List Frame) (m : Nat)
    (h : ∀ g ∈ l, g.pageNum.toNat ≠ m) : ((flushFrames disk l).1)[m]? = disk[m]? := by
  induction l generalizing disk with
  | nil => rfl
  | cons f fs ih =>
    rw [flushFrames]
    split
    · rw [ih _ (fun g hg => h g (List.mem_cons_of_mem _ hg))]
      exact writeBlockIgnored_getElem?_ne disk _ _ m (h f (List.mem_cons_self _ _))
    · exact ih disk (fun g hg => h g (List.mem_cons_of_mem _ hg))

/-- Auxiliary: after the flush sweep, the disk holds the data of every dirty
unpinned frame at that frame's page, provided page numbers are in range and
pairwise distinct. -/
theorem flushFrames_getElem?_dirty (disk : Disk) (l : List Frame)
    (hr : ∀ g ∈ l, 0 ≤ g.pageNum ∧ g.pageNum < (disk.length : Int))
    (hdist : l.Pairwise (fun a b => a.pageNum ≠ b.pageNum)) :
    ∀ f ∈ l, f.isDirty = true → f.pinCount = 0 →
      ((flushFrames disk l).1)[f.pageNum.toNat]? = some f.data := by
  induction l generalizing disk with
  | nil => intro f hf; cases hf
  | cons g gs ih =>
    intro f hf hdirty hpin
    have hrg := hr g (List.mem_cons_self _ _)
    rcases List.mem_cons.mp hf with rfl | htail
    · rw [flushFrames, if_pos ⟨hdirty, hpin⟩]
      have hset : (writeBlockIgnored disk f.pageNum f.data)[f.pageNum.toNat]? = some f.data := by
        rw [writeBlockIgnored, if_neg (by omega)]
        exact List.getElem?_set_self (by omega)
      rw [flushFrames_getElem?_untouched _ _ _ ?_]
      · exact hset
      · intro q hq
        have hne := (List.pairwise_cons.mp hdist).1 q hq
        have hrq := hr q (List.mem_cons_of_mem _ hq)
        omega
    · have htl : ∀ q ∈ gs, 0 ≤ q.pageNum ∧ q.pageNum < (disk.length : Int) :=
        fun q hq => hr q (List.mem_cons_of_mem _ hq)
      rw [flushFrames]
      split
      · have hr1 : ∀ q ∈ gs, 0 ≤ q.pageNum ∧
            q.pageNum < ((writeBlockIgnored disk g.pageNum g.data).length : Int) := by
          intro q hq
          rw [writeBlockIgnored_length]
          exact htl q hq
        exact ih _ hr1 (List.pairwise_cons.mp hdist).2 f htail hdirty hpin
      · exact ih _ htl (List.pairwise_cons.mp hdist).2 f htail hdirty hpin

/-- C2: if some frame of the pool is pinned, `shutdownBufferPool` first runs
the full flush sweep (so every dirty unpinned frame's contents land on disk at
its page number), then fails with `RC_PINNED_PAGES_IN_BUFFER`, and every frame
that was pinned before the call is still present in the pool — same page,
contents and pin count — after the failing shutdown. -/
theorem C2_shutdown_pinned (disk : Disk) (p : BufferPool)
    (hpin : ∃ f ∈ p.frames, 0 < f.pinCount)
    (hr : ∀ g ∈ p.frames, 0 ≤ g.pageNum ∧ g.pageNum < (disk.length : Int))
    (hdist : p.frames.Pairwise (fun a b => a.pageNum ≠ b.pageNum)) :
    (shutdownBufferPool disk p).1 = RC.PINNED_PAGES_IN_BUFFER ∧
    (∀ f ∈ p.frames, 0 < f.pinCount → f ∈ (shutdownBufferPool disk p).2.2.frames) ∧
    (∀ f ∈ p.frames, f.isDirty = true → f.pinCount = 0 →
       ((shutdownBufferPool disk p).2.1)[f.pageNum.toNat]? = some f.data) := by
  refine ⟨?_, ?_, ?_⟩
  · obtain ⟨f, hf, hp⟩ := hpin
    exact releaseFrames_rc ⟨f, mem_flushFrames_of_pinned disk hf hp, hp⟩
  · intro f hf hp
    exact mem_releaseFrames_of_pinned (mem_flushFrames_of_pinned disk hf hp) hp
  · intro f hf hdirty hpin0
    exact flushFrames_getElem?_dirty disk p.frames hr hdist f hf hdirty hpin0

/-- Concrete pool for the C2 witness: a dirty unpinned frame for page 0 and a
pinned frame for page 1, over a two-page file. -/
def c2Pool : BufferPool :=
  { frames := [{ data := List.replicate PAGE_SIZE 3, pageNum := 0, isDirty := true,
                 pinCount := 0, accessCount := 1, lastAccessed := 1 },
               { data := List.replicate PAGE_SIZE 4, pageNum := 1, isDirty := false,
                 pinCount := 2, accessCount := 1, lastAccessed := 2 }],
    fifoHead := some 0, totalFrames := 2, readCount := 2, writeCount := 0,
    clockHand := 0, globalTimer := 2, strategy := Strategy.FIFO }

/-- The pinned frame of `c2Pool`. -/
def c2PinnedFrame : Frame :=
  { data := List.replicate PAGE_SIZE 4, pageNum := 1, isDirty := false,
    pinCount := 2, accessCount := 1, lastAccessed := 2 }

/-- C2 witness: the theorem applied to `c2Pool` over a two-page file.  The
shutdown fails with `RC_PINNED_PAGES_IN_BUFFER`, the pinned frame for page 1
survives untouched, and the dirty page 0 was flushed to disk. -/
theorem C2_shutdown_pinned_witness :
    (∃ f ∈ c2Pool.frames, 0 < f.pinCount) ∧
    (shutdownBufferPool [zeroPage, zeroPage] c2Pool).1 = RC.PINNED_PAGES_IN_BUFFER ∧
    c2PinnedFrame ∈ (shutdownBufferPool [zeroPage, zeroPage] c2Pool).2.2.frames := by
  have h := C2_shutdown_pinned [zeroPage, zeroPage] c2Pool
    ⟨c2PinnedFrame, by simp [c2Pool, c2PinnedFrame], by decide⟩
    (by intro g hg; simp [c2Pool] at hg; rcases hg with rfl | rfl <;> simp)
    (by decide)
  exact ⟨⟨c2PinnedFrame, by simp [c2Pool, c2PinnedFrame], by decide⟩, h.1,
    h.2.1 c2PinnedFrame (by simp [c2Pool, c2PinnedFrame]) (by decide)⟩

/-! ## Record manager (`record_mgr.c`)

The record manager runs on top of the buffer pool embedded above.  The schema
enters only through `getRecordSize`, so the embedding takes the record size as
a parameter; the external expression evaluator of scans is a boolean function
of the record bytes. -/

/-- `RID` from tables.h. -/
structure RID where
  page : Int
  slot : Int
  deriving Repr, DecidableEq

/-- `Record` from tables.h: the id and the owned payload bytes (byte 0 is the
tombstone). -/
structure Record where
  id : RID
  data : List Nat
  deriving Repr, DecidableEq

/-- The fields of the `TableInfo` singleton (record_mgr.c:9) that the
embedded operations read or write, plus the page number the shared
`pageInfo` handle currently designates. -/
structure TableInfo where
  tupleCount : Int
  freePageIndex : Int
  pageInfoNum : Int
  deriving Repr, DecidableEq

/-- The full state a record-manager operation acts on: page file, buffer pool
and the `TableInfo` singleton. -/
structure RMState where
  disk : Disk
  pool : BufferPool
  info : TableInfo
  deriving Repr, DecidableEq

/-- The buffer a successful pin's `BM_PageHandle` points at: the data of the
frame holding `pageNum`. -/
def frameData (p : BufferPool) (pageNum : Int) : Page :=
  match findPage p.frames pageNum with
  | some i => (p.frames.getD i noFrame).data
  | none => []

/-- A write through the handle's data pointer: replace the buffer of the
frame holding `pageNum`. -/
def setFrameData (p : BufferPool) (pageNum : Int) (d : Page) : BufferPool :=
  match findPage p.frames pageNum with
  | some i => { p with frames := p.frames.set i { p.frames.getD i noFrame with data := d } }
  | none => p

/-- Write the bytes `bs` into `pg` starting at byte `off` (pointer arithmetic
plus assignment/memcpy in the source). -/
def pageWrite : Page → Nat → List Nat → Page
  | pg, _, [] => pg
  | pg, off, b :: bs => pageWrite (pg.set off b) (off + 1) bs

/-- Read `n` bytes of `pg` starting at `off` (memcpy out of a page). -/
def pageReadBytes (pg : Page) (off n : Nat) : List Nat :=
  (List.range n).map (fun i => pg.getD (off + i) 0)

/-- The slot scan of `locateEmptySlot` (record_mgr.c:39): remaining slots as
fuel, which starts at `maxSlots = PAGE_SIZE / recordSize`.  '+' is byte 43. -/
def locateFrom (pageContent : Page) (recordSize : Nat) : Nat → Nat → Int
  | _, 0 => -1
  | slotIndex, rem + 1 =>
    if pageContent.getD (slotIndex * recordSize) 0 ≠ 43 then (slotIndex : Int)
    else locateFrom pageContent recordSize (slotIndex + 1) rem

/-- `locateEmptySlot` (record_mgr.c:34). -/
def locateEmptySlot (pageContent : Page) (recordSize : Nat) : Int :=
  locateFrom pageContent recordSize 0 (PAGE_SIZE / recordSize)

/-- `getNumTuples` (record_mgr.c:369): the in-memory counter. -/
def getNumTuples (st : RMState) : Int := st.info.tupleCount

/-- The page-advance loop of `insertRecord` (record_mgr.c:421): while no free
slot was found, unpin the current page, pin the next one, rescan.  `none`
means the loop (or a pin of a CLOCK pool) did not finish within the fuel; the
loop only exits with `RC_OK` when a slot was found, every other exit carries
the error of the failing call, as in the source. -/
def insertLoop (pinFuel recordSize : Nat) :
    Nat → RMState → Int → Int → Option (RC × RMState × Int × Int)
  | 0, _, _, _ => none
  | fuel + 1, st, ridPage, ridSlot =>
    if ridSlot = -1 then
      let u := unpinPage st.pool ridPage
      if u.1 ≠ RC.OK then some (u.1, { st with pool := u.2 }, ridPage, ridSlot)
      else
        let st1 := { st with pool := u.2 }
        let page1 := ridPage + 1
        match pinPage pinFuel st1.disk st1.pool page1 with
        | none => none
        | some (rcP, disk1, pool1) =>
          if rcP ≠ RC.OK then
            some (rcP, { st1 with disk := disk1, pool := pool1 }, page1, ridSlot)
          else
            let st2 :=
              { st1 with
                disk := disk1
                pool := pool1
                info := { st1.info with pageInfoNum := page1 } }
            let slot1 := locateEmptySlot (frameData st2.pool page1) recordSize
            insertLoop pinFuel recordSize fuel st2 page1 slot1
    else
      some (RC.OK, st, ridPage, ridSlot)

/-- `insertRecord` (record_mgr.c:390), fuel-indexed.  On success: the found
slot's tombstone is set to '+' and the payload bytes `[1, recordSize)` of the
record are copied in, the page is marked dirty and unpinned, the tuple count
is incremented — and then page 0 is pinned, with no matching unpin
(record_mgr.c:465).  `recordSize = 0` models the C check `recordSize <= 0`. -/
def insertRecord (pinFuel loopFuel recordSize : Nat) (st : RMState)
    (recData : List Nat) : Option (RC × RMState × RID) :=
  if recordSize = 0 then some (RC.MEMORY_ALLOCATION_ERROR, st, ⟨-1, -1⟩)
  else
    let ridPage := st.info.freePageIndex
    match pinPage pinFuel st.disk st.pool ridPage with
    | none => none
    | some (rcP, disk1, pool1) =>
      if rcP ≠ RC.OK then some (rcP, { st with disk := disk1, pool := pool1 }, ⟨ridPage, -1⟩)
      else
        let st1 :=
          { st with
            disk := disk1
            pool := pool1
            info := { st.info with pageInfoNum := ridPage } }
        let slot0 := locateEmptySlot (frameData st1.pool ridPage) recordSize
        match insertLoop pinFuel recordSize loopFuel st1 ridPage slot0 with
        | none => none
        | some (rcL, st2, page2, slot2) =>
          if rcL ≠ RC.OK then some (rcL, st2, ⟨page2, slot2⟩)
          else
            let md := markDirty st2.pool st2.info.pageInfoNum
            if md.1 ≠ RC.OK then
              let u := unpinPage md.2 st2.info.pageInfoNum
              some (md.1, { st2 with pool := u.2 }, ⟨page2, slot2⟩)
            else
              let oldPg := frameData md.2 st2.info.pageInfoNum
              let newPg := pageWrite oldPg (slot2.toNat * recordSize)
                (43 :: (recData.drop 1).take (recordSize - 1))
              let pool4 := setFrameData md.2 st2.info.pageInfoNum newPg
              let u := unpinPage pool4 st2.info.pageInfoNum
              if u.1 ≠ RC.OK then some (u.1, { st2 with pool := u.2 }, ⟨page2, slot2⟩)
              else
                let st3 :=
                  { st2 with
                    pool := u.2
                    info := { st2.info with tupleCount := st2.info.tupleCount + 1 } }
                match pinPage pinFuel st3.disk st3.pool 0 with
                | none => none
                | some (rcZ, disk4, pool5) =>
                  if rcZ ≠ RC.OK then
                    some (rcZ, { st3 with disk := disk4, pool := pool5 }, ⟨page2, slot2⟩)
                  else
                    let st4 :=
                      { st3 with
                        disk := disk4
                        pool := pool5
                        info := { st3.info with pageInfoNum := 0 } }
                    some (RC.OK, st4, ⟨page2, slot2⟩)

/-- `getRecord` (record_mgr.c:597): pin the page, check the tombstone, copy
the payload bytes `[1, recordSize)` into the caller's record, unpin. -/
def getRecord (pinFuel recordSize : Nat) (st : RMState) (id : RID)
    (rec : Record) : Option (RC × RMState × Record) :=
  match pinPage pinFuel st.disk st.pool id.page with
  | none => none
  | some (rcP, disk1, pool1) =>
    if rcP ≠ RC.OK then some (rcP, { st with disk := disk1, pool := pool1 }, rec)
    else
      let st1 :=
        { st with
          disk := disk1
          pool := pool1
          info := { st.info with pageInfoNum := id.page } }
      if recordSize = 0 then
        let u := unpinPage st1.pool id.page
        some (RC.MEMORY_ALLOCATION_ERROR, { st1 with pool := u.2 }, rec)
      else
        let pg := frameData st1.pool id.page
        if pg.getD (id.slot.toNat * recordSize) 0 ≠ 43 then
          let u := unpinPage st1.pool id.page
          if u.1 ≠ RC.OK then some (u.1, { st1 with pool := u.2 }, rec)
          else some (RC.RM_NO_TUPLE_WITH_GIVEN_RID, { st1 with pool := u.2 }, rec)
        else
          let rec1 : Record :=
            { id := id
              data := pageWrite rec.data 1
                (pageReadBytes pg (id.slot.toNat * recordSize + 1) (recordSize - 1)) }
          let u := unpinPage st1.pool id.page
          if u.1 ≠ RC.OK then some (u.1, { st1 with pool := u.2 }, rec1)
          else some (RC.OK, { st1 with pool := u.2 }, rec1)

/-- `deleteRecord` (record_mgr.c:483): pin the page, move the free-page hint
to it, overwrite the slot's tombstone with '-' (byte 45), mark dirty, unpin.
The tuple count is not touched anywhere in the function. -/
def deleteRecord (pinFuel recordSize : Nat) (st : RMState) (id : RID) :
    Option (RC × RMState) :=
  match pinPage pinFuel st.disk st.pool id.page with
  | none => none
  | some (rcP, disk1, pool1) =>
    if rcP ≠ RC.OK then some (rcP, { st with disk := disk1, pool := pool1 })
    else
      let st1 :=
        { st with
          disk := disk1
          pool := pool1
          info := { st.info with pageInfoNum := id.page, freePageIndex := id.page } }
      if recordSize = 0 then
        let u := unpinPage st1.pool id.page
        some (RC.MEMORY_ALLOCATION_ERROR, { st1 with pool := u.2 })
      else
        let pg := frameData st1.pool id.page
        let pool2 := setFrameData st1.pool id.page (pg.set (id.slot.toNat * recordSize) 45)
        let md := markDirty pool2 id.page
        if md.1 ≠ RC.OK then
          let u := unpinPage md.2 id.page
          some (md.1, { st1 with pool := u.2 })
        else
          let u := unpinPage md.2 id.page
          if u.1 ≠ RC.OK then some (u.1, { st1 with pool := u.2 })
          else some (RC.OK, { st1 with pool := u.2 })

/-- Little-endian byte encoding of a C `int` value (the x86 layout a
`memcpy`/pointer store of an `int` produces). -/
def encInt (n : Int) : List Nat :=
  let u := (n % 4294967296).toNat
  [u % 256, u / 256 % 256, u / 65536 % 256, u / 16777216 % 256]

/-- Little-endian decode of a C `int` at byte offset `off`. -/
def readInt32 (bs : List Nat) (off : Nat) : Int :=
  let u := bs.getD off 0 + bs.getD (off + 1) 0 * 256 + bs.getD (off + 2) 0 * 65536 +
    bs.getD (off + 3) 0 * 16777216
  if u < 2147483648 then (u : Int) else (u : Int) - 4294967296

/-- `openTable` (record_mgr.c:195) reduced to its state effects: pin page 0,
read the tuple count (offset 0) and free-page index (offset 4) from the
header, unpin, then `forcePage` the handle's page.  The schema reconstruction
into caller-owned memory is not part of the table state (the record size is a
parameter of the embedding), and allocation is reliable. -/
def openTable (pinFuel : Nat) (st : RMState) : Option (RC × RMState) :=
  match pinPage pinFuel st.disk st.pool 0 with
  | none => none
  | some (rcP, disk1, pool1) =>
    if rcP ≠ RC.OK then some (rcP, { st with disk := disk1, pool := pool1 })
    else
      let hdr := frameData pool1 0
      let st1 :=
        { st with
          disk := disk1
          pool := pool1
          info := { tupleCount := readInt32 hdr 0, freePageIndex := readInt32 hdr 4,
                    pageInfoNum := 0 } }
      let u := unpinPage st1.pool 0
      if u.1 ≠ RC.OK then some (u.1, { st1 with pool := u.2 })
      else
        let fp := forcePage st1.disk u.2 0
        if fp.1 ≠ RC.OK then some (fp.1, { st1 with disk := fp.2.1, pool := fp.2.2 })
        else some (RC.OK, { st1 with disk := fp.2.1, pool := fp.2.2 })

/-- The scan-manager state `startScan` allocates (record_mgr.c:682): current
position, scan index, and the page the scan's own `BM_PageHandle` designates.
The predicate itself (the external expression evaluator) is a parameter of
`next`. -/
structure ScanInfo where
  recordID : RID
  scanIndex : Int
  pageInfoNum : Int
  deriving Repr, DecidableEq

/-- `startScan` (record_mgr.c:660): reject a missing predicate, re-open the
table (the source passes the fixed name "ScanTable", but `openTable` only
ever touches the buffer pool already attached to the `TableInfo` singleton,
so only the header re-read matters), initialise the scan state at position
(0,0) with index 0, and finally overwrite the table's tuple count with
`ATTR_NAME_MAX_LENGTH` = 15 — the source's literal "Example placeholder". -/
def startScan (pinFuel : Nat) (st : RMState) (condPresent : Bool) :
    Option (RC × RMState × Option ScanInfo) :=
  if condPresent = false then some (RC.SCAN_CONDITION_NOT_FOUND, st, none)
  else
    match openTable pinFuel st with
    | none => none
    | some (rcO, st1) =>
      if rcO ≠ RC.OK then some (rcO, st1, none)
      else
        let sc : ScanInfo := { recordID := ⟨0, 0⟩, scanIndex := 0, pageInfoNum := 0 }
        some (RC.OK, { st1 with info := { st1.info with tupleCount := 15 } }, some sc)

/-- The scan loop of `next` (record_mgr.c:769), fuel-indexed (the C loop runs
while `scanCount <= totalRecords`, one slot per pass, so any fuel of at least
`totalRecords + 1 - scanCount` settles the call).  Each pass advances the
position (first call: page 1 slot 0), pins the page, copies the slot into the
output record ('-' tombstone first), bumps the counters and evaluates the
predicate; only a hit or the final exit unpins. -/
def nextLoop (pinFuel recordSize : Nat) (cond : List Nat → Bool)
    (totalRecords slotsPerPage : Int) :
    Nat → RMState → ScanInfo → Record → Int → Option (RC × RMState × ScanInfo × Record)
  | 0, _, _, _, _ => none
  | fuel + 1, st, sc, rec, scanCount =>
    if scanCount ≤ totalRecords then
      let rid1 : RID :=
        if scanCount ≤ 0 then ⟨1, 0⟩
        else if sc.recordID.slot + 1 ≥ slotsPerPage then ⟨sc.recordID.page + 1, 0⟩
        else ⟨sc.recordID.page, sc.recordID.slot + 1⟩
      match pinPage pinFuel st.disk st.pool rid1.page with
      | none => none
      | some (rcP, disk1, pool1) =>
        if rcP ≠ RC.OK then
          some (rcP, { st with disk := disk1, pool := pool1 }, { sc with recordID := rid1 }, rec)
        else
          let st1 := { st with disk := disk1, pool := pool1 }
          let pg := frameData st1.pool rid1.page
          let off := rid1.slot.toNat * recordSize
          let rec1 : Record :=
            { id := rid1
              data := pageWrite (rec.data.set 0 45) 1
                (pageReadBytes pg (off + 1) (recordSize - 1)) }
          let sc1 : ScanInfo :=
            { recordID := rid1, scanIndex := sc.scanIndex + 1, pageInfoNum := rid1.page }
          if cond rec1.data then
            let u := unpinPage st1.pool sc1.pageInfoNum
            if u.1 ≠ RC.OK then some (u.1, { st1 with pool := u.2 }, sc1, rec1)
            else some (RC.OK, { st1 with pool := u.2 }, sc1, rec1)
          else
            nextLoop pinFuel recordSize cond totalRecords slotsPerPage fuel
              st1 sc1 rec1 (scanCount + 1)
    else
      let u := unpinPage st.pool sc.pageInfoNum
      if u.1 ≠ RC.OK then some (u.1, { st with pool := u.2 }, sc, rec)
      else
        some (RC.RM_NO_MORE_TUPLES, { st with pool := u.2 },
          { sc with recordID := ⟨1, 0⟩, scanIndex := 0 }, rec)

/-- `next` (record_mgr.c:725): the record-size guard (`RC_ERROR`), the
empty-table check, then the scan loop starting at the stored scan index. -/
def next (pinFuel recordSize : Nat) (cond : List Nat → Bool) (loopFuel : Nat)
    (st : RMState) (sc : ScanInfo) (rec : Record) :
    Option (RC × RMState × ScanInfo × Record) :=
  if recordSize = 0 then some (RC.ERROR, st, sc, rec)
  else if st.info.tupleCount = 0 then some (RC.RM_NO_MORE_TUPLES, st, sc, rec)
  else
    nextLoop pinFuel recordSize cond st.info.tupleCount ((PAGE_SIZE / recordSize : Nat) : Int)
      loopFuel st sc rec sc.scanIndex

/-! ## Claim C10: deleteRecord leaves the tuple count unchanged -/

/-- C10: `deleteRecord` never touches the tuple count — whatever it returns,
`getNumTuples` afterwards equals `getNumTuples` before the call (the count is
incremented on insert but never decremented on delete). -/
theorem C10_delete_keeps_tuple_count (pinFuel recordSize : Nat) (st : RMState) (id : RID)
    (rc : RC) (st1 : RMState)
    (h : deleteRecord pinFuel recordSize st id = some (rc, st1)) :
    getNumTuples st1 = getNumTuples st := by
  revert h
  simp only [deleteRecord]
  split
  · intro h; cases h
  · split
    · intro h; cases h; rfl
    · split
      · intro h; cases h; rfl
      · split
        · intro h; cases h; rfl
        · split
          · intro h; cases h; rfl
          · intro h; cases h; rfl

/-! ## Claim C5: scan with predicate id == 2 -/

/-- A live row of the claim's single-INT-column table: '+' plus the encoded
id (record size 5). -/
def rowBytes (k : Int) : List Nat := 43 :: encInt k

/-- Data page 1 of the scenario table: rows id = 1, 2, 3 in slots 0..2. -/
def c5Page1 : Page :=
  (rowBytes 1 ++ rowBytes 2 ++ rowBytes 3) ++ List.replicate (PAGE_SIZE - 15) 0

/-- Header page of the scenario table: tuple count 3, first free page 1. -/
def c5Header : Page := pageWrite zeroPage 0 (encInt 3 ++ encInt 1)

/-- The open scenario table: pages 0 and 1 resident and clean, nothing
pinned. -/
def c5State : RMState :=
  { disk := [c5Header, c5Page1]
    pool :=
      { frames := [{ data := c5Header, pageNum := 0, isDirty := false, pinCount := 0,
                     accessCount := 1, lastAccessed := 1 },
                   { data := c5Page1, pageNum := 1, isDirty := false, pinCount := 0,
                     accessCount := 1, lastAccessed := 2 }]
        fifoHead := some 0, totalFrames := 100, readCount := 2, writeCount := 0,
        clockHand := 0, globalTimer := 2, strategy := Strategy.LRU }
    info := { tupleCount := 3, freePageIndex := 1, pageInfoNum := 0 } }

/-- The scan predicate `id == 2` as the external expression evaluator
computes it on the record bytes: decode the INT attribute at offset 1. -/
def predIdEq2 (bs : List Nat) : Bool := readInt32 bs 1 == 2

/-- The record buffer `createRecord` hands to the scan: '-' tombstone, a nul,
and (here zeroed) uninitialised bytes; every byte is overwritten before the
predicate reads it. -/
def freshRec5 : Record := { id := ⟨-1, -1⟩, data := 45 :: 0 :: List.replicate 3 0 }

/-- Scenario 6 run end to end on the embedded code: start the scan on the
three-row table, call `next` twice, report both return codes and the first
call's record. -/
def c5Run : Option (RC × Record × RC) :=
  match startScan 10 c5State true with
  | some (RC.OK, st1, some sc) =>
    match next 10 5 predIdEq2 20 st1 sc freshRec5 with
    | some (rc2, st2, sc2, rec2) =>
      match next 10 5 predIdEq2 20 st2 sc2 rec2 with
      | some (rc3, _, _, _) => some (rc2, rec2, rc3)
      | none => none
    | none => none
  | _ => none

/-- C5: on the table with exactly the rows id = 1, 2, 3, a scan with
predicate `id == 2` returns one record from the first `next` call — return
code OK, id attribute 2, at RID (1,1) — and the second `next` call reports
`RC_RM_NO_MORE_TUPLES`. -/
theorem C5_scan_id_eq_2 :
    (c5Run.map (fun r => (r.1, readInt32 r.2.1.data 1, r.2.1.id, r.2.2))) =
      some (RC.OK, 2, (⟨1, 1⟩ : RID), RC.RM_NO_MORE_TUPLES) := by decide

/-! ## Claim C6: pin balance across insertRecord -/

/-- The sum of all pin counts over the frames of a pool. -/
def pinSum (p : BufferPool) : Nat := (p.frames.map Frame.pinCount).sum

/-- Auxiliary: a hit of `findPage` is an in-range index. -/
theorem findPage_lt_length {frames : List Frame} {n : Int} {i : Nat}
    (h : findPage frames n = some i) : i < frames.length :=
  (List.findIdx?_eq_some_iff_findIdx_eq.mp h).1

/-- Auxiliary: the frame `findPage` designates holds the requested page. -/
theorem findPage_pageNum {frames : List Frame} {n : Int} {i : Nat}
    (h : findPage frames n = some i) : (frames.getD i noFrame).pageNum = n := by
  obtain ⟨hlt, hidx⟩ := List.findIdx?_eq_some_iff_findIdx_eq.mp h
  subst hidx
  rw [List.getD_eq_getElem?_getD, List.getElem?_eq_getElem hlt, Option.getD_some]
  simpa using @List.findIdx_getElem _ (fun f => f.pageNum == n) frames hlt

/-- Auxiliary: how one in-place frame update changes the pin-count sum. -/
theorem pinSum_set (frames : List Frame) (i : Nat) (f : Frame) (hi : i < frames.length) :
    ((frames.set i f).map Frame.pinCount).sum + (frames.getD i noFrame).pinCount
      = (frames.map Frame.pinCount).sum + f.pinCount := by
  induction frames generalizing i with
  | nil => simp at hi
  | cons g gs ih =>
    cases i with
    | zero => simp [List.set_cons_zero]; omega
    | succ j =>
      have hj : j < gs.length := by simpa using hi
      have := ih j hj
      simp only [List.set_cons_succ, List.map_cons, List.sum_cons, List.getD_cons_succ]
      omega

/-- Auxiliary: a fold preserving a predicate of the accumulator. -/
theorem foldl_inv {α β : Type} (g : β → α → β) (l : List α) (P : β → Prop) (acc : β)
    (hacc : P acc) (hstep : ∀ b a, a ∈ l → P b → P (g b a)) : P (l.foldl g acc) := by
  induction l generalizing acc with
  | nil => exact hacc
  | cons x xs ih =>
    exact ih _ (hstep _ _ (by simp) hacc) (fun b a ha hb => hstep b a (by simp [ha]) hb)

/-- Auxiliary: an LRU victim is an in-range index. -/
theorem replaceLRU_lt_length {p : BufferPool} {i : Nat} (h : replaceLRU p = some i) :
    i < p.frames.length := by
  rw [replaceLRU] at h
  refine foldl_inv
    (fun acc pr =>
      if pr.2.pinCount = 0 ∧ pr.2.lastAccessed < acc.2 then (some pr.1, pr.2.lastAccessed)
      else acc)
    p.frames.enum
    (fun acc : Option Nat × Nat => ∀ j, acc.1 = some j → j < p.frames.length)
    ((none : Option Nat), p.globalTimer + 1) ?_ ?_ i h
  · intro j hj; cases hj
  · intro b a ha hb j hj
    simp only [] at hj
    split at hj
    · simp only [Option.some.injEq] at hj
      subst hj
      have h1 := List.mem_enum_iff_getElem?.mp ha
      rcases List.getElem?_eq_some_iff.mp h1 with ⟨hlt, -⟩
      exact hlt
    · exact hb j hj

/-- Auxiliary: getD after setting the same position. -/
theorem getD_set_self (frames : List Frame) (i : Nat) (f : Frame) (hi : i < frames.length) :
    (frames.set i f).getD i noFrame = f := by
  simp [List.getD_eq_getElem?_getD, List.getElem?_set_self hi]

/-- Auxiliary: summing a list of naturals after an in-range in-place update. -/
theorem sum_set_nat (L : List Nat) (i : Nat) (b : Nat) (hi : i < L.length) :
    (L.set i b).sum + L.getD i 0 = L.sum + b := by
  induction L generalizing i with
  | nil => simp at hi
  | cons x xs ih =>
    cases i with
    | zero => simp [List.set_cons_zero]; omega
    | succ j =>
      have hj : j < xs.length := by simpa using hi
      have := ih j hj
      simp only [List.set_cons_succ, List.sum_cons, List.getD_cons_succ]
      omega

/-- Auxiliary: the pin count read off the mapped list. -/
theorem getD_map_pinCount (frames : List Frame) (i : Nat) (hi : i < frames.length) :
    (frames.map Frame.pinCount).getD i 0 = (frames.getD i noFrame).pinCount := by
  simp [List.getD_eq_getElem?_getD, List.getElem?_map, List.getElem?_eq_getElem hi]

/-- Auxiliary: a successful `pinPage` on an LRU pool raises the total pin
count by exactly one and keeps the strategy: a hit bumps the found frame, a
miss into a free frame appends a frame with pin count 1, and an eviction
replaces a victim whose pin count was 0 (guarded at buffer_mgr.c:584) with
pin count 1. -/
theorem pinPage_pinSum {fuel : Nat} {disk : Disk} {p : BufferPool} {n : Int}
    {res : RC × Disk × BufferPool}
    (hstrat : p.strategy = Strategy.LRU)
    (h : pinPage fuel disk p n = some res) (hrc : res.1 = RC.OK) :
    pinSum res.2.2 = pinSum p + 1 ∧ res.2.2.strategy = Strategy.LRU := by
  rcases hf : findPage p.frames n with _ | i
  · by_cases hroom : p.frames.length < p.totalFrames
    · simp only [pinPage, hf, hroom, if_true] at h
      split at h
      · rename_i hcond
        cases h
        exact absurd hrc hcond
      · cases h
        refine ⟨?_, hstrat⟩
        simp [pinSum]
    · rcases hv : replaceLRU p with _ | vidx
      · simp only [pinPage, hf, hroom, if_false, hstrat, hv] at h
        cases h
        simp at hrc
      · have hvlt := replaceLRU_lt_length hv
        simp only [pinPage, hf, hroom, if_false, hstrat, hv] at h
        split at h
        · cases h
          simp at hrc
        · rename_i hpin0
          push_neg at hpin0
          by_cases hd : (p.frames.getD vidx noFrame).isDirty = true
          case pos =>
            rw [if_pos hd] at h
            split at h
            · rename_i hcond
              cases h
              exact absurd hrc hcond
            · cases h
              refine ⟨?_, by simp [hstrat]⟩
              simp only [pinSum, List.map_set, List.set_set]
              have hs := sum_set_nat (p.frames.map Frame.pinCount) vidx 1 (by simpa using hvlt)
              rw [getD_map_pinCount _ _ hvlt] at hs
              omega
          case neg =>
            rw [if_neg hd] at h
            split at h
            · rename_i hcond
              cases h
              exact absurd hrc hcond
            · cases h
              refine ⟨?_, by simp [hstrat]⟩
              simp only [pinSum, List.map_set, List.set_set]
              have hs := sum_set_nat (p.frames.map Frame.pinCount) vidx 1 (by simpa using hvlt)
              rw [getD_map_pinCount _ _ hvlt] at hs
              omega
  · simp only [pinPage, hf] at h
    cases h
    have hi := findPage_lt_length hf
    refine ⟨?_, hstrat⟩
    simp only [pinSum, List.map_set]
    have hs := sum_set_nat (p.frames.map Frame.pinCount) i
      ((p.frames.getD i noFrame).pinCount + 1) (by simpa using hi)
    rw [getD_map_pinCount _ _ hi] at hs
    omega

/-- Auxiliary: a successful `unpinPage` lowers the total pin count by exactly
one and keeps the strategy. -/
theorem unpinPage_pinSum {p : BufferPool} {n : Int}
    (hrc : (unpinPage p n).1 = RC.OK) :
    pinSum p = pinSum (unpinPage p n).2 + 1 ∧ (unpinPage p n).2.strategy = p.strategy := by
  rcases hf : findPage p.frames n with _ | i <;> simp only [unpinPage, hf] at hrc ⊢
  · cases hrc
  · split at hrc
    · rename_i hpin
      rw [if_pos hpin]
      refine ⟨?_, rfl⟩
      have hi := findPage_lt_length hf
      simp only [pinSum, List.map_set]
      have hs := sum_set_nat (p.frames.map Frame.pinCount) i
        ((p.frames.getD i noFrame).pinCount - 1) (by simpa using hi)
      rw [getD_map_pinCount _ _ hi] at hs
      omega
    · cases hrc

/-- Auxiliary: `markDirty` never changes a pin count or the strategy. -/
theorem markDirty_pinSum (p : BufferPool) (n : Int) :
    pinSum (markDirty p n).2 = pinSum p ∧ (markDirty p n).2.strategy = p.strategy := by
  rcases hf : findPage p.frames n with _ | i <;> simp only [markDirty, hf]
  · exact ⟨trivial, trivial⟩
  · refine ⟨?_, trivial⟩
    have hi := findPage_lt_length hf
    simp only [pinSum, List.map_set]
    have hs := sum_set_nat (p.frames.map Frame.pinCount) i
      ((p.frames.getD i noFrame).pinCount) (by simpa using hi)
    rw [getD_map_pinCount _ _ hi] at hs
    omega

/-- Auxiliary: writing through the page handle never changes a pin count or
the strategy. -/
theorem setFrameData_pinSum (p : BufferPool) (n : Int) (d : Page) :
    pinSum (setFrameData p n d) = pinSum p ∧ (setFrameData p n d).strategy = p.strategy := by
  rcases hf : findPage p.frames n with _ | i <;> simp only [setFrameData, hf]
  · exact ⟨trivial, trivial⟩
  · refine ⟨?_, trivial⟩
    have hi := findPage_lt_length hf
    simp only [pinSum, List.map_set]
    have hs := sum_set_nat (p.frames.map Frame.pinCount) i
      ((p.frames.getD i noFrame).pinCount) (by simpa using hi)
    rw [getD_map_pinCount _ _ hi] at hs
    omega

/-- Auxiliary: each pass of the `insertRecord` page loop unpins one page and
pins the next, so on a successful exit the total pin count (and the LRU
strategy) of the pool is unchanged. -/
theorem insertLoop_pinSum :
    ∀ (loopFuel pinFuel recordSize : Nat) (st : RMState) (page slot : Int)
      (st2 : RMState) (page2 slot2 : Int),
      st.pool.strategy = Strategy.LRU →
      insertLoop pinFuel recordSize loopFuel st page slot = some (RC.OK, st2, page2, slot2) →
      pinSum st2.pool = pinSum st.pool ∧ st2.pool.strategy = Strategy.LRU := by
  intro loopFuel
  induction loopFuel with
  | zero => intro _ _ _ _ _ _ _ _ _ h; cases h
  | succ k ih =>
    intro pinFuel recordSize st page slot st2 page2 slot2 hstrat h
    simp only [insertLoop] at h
    by_cases hslot : slot = -1
    · rw [if_pos hslot] at h
      split at h
      · rename_i hu
        simp only [Option.some.injEq, Prod.mk.injEq] at h
        exact absurd h.1 hu
      · rename_i hu
        push_neg at hu
        have hun := unpinPage_pinSum hu
        split at h
        · cases h
        · rename_i rcP disk1 pool1 hpin
          split at h
          · rename_i hrcP
            cases h
            simp at hrcP
          · rename_i hrcP
            push_neg at hrcP
            subst hrcP
            have hps := pinPage_pinSum (hun.2.trans hstrat) hpin rfl
            have hrec := ih pinFuel recordSize _ (page + 1) _ st2 page2 slot2 hps.2 h
            refine ⟨?_, hrec.2⟩
            rw [hrec.1]
            simp only [] at hps ⊢
            omega
    · rw [if_neg hslot] at h
      cases h
      exact ⟨rfl, hstrat⟩

/-- C6 (the code has a bug here): a successful `insertRecord` leaves the sum
of pin counts over the table's (LRU) buffer pool one HIGHER than before the
call, not equal to it: the trailing `pinPage(pool, pageInfo, 0)` at
record_mgr.c:465 has no matching unpin on the success path. -/
theorem C6_insert_pin_leak (pinFuel loopFuel recordSize : Nat) (st : RMState)
    (recData : List Nat) (st1 : RMState) (rid : RID)
    (hstrat : st.pool.strategy = Strategy.LRU)
    (h : insertRecord pinFuel loopFuel recordSize st recData = some (RC.OK, st1, rid)) :
    pinSum st1.pool = pinSum st.pool + 1 := by
  simp only [insertRecord] at h
  split at h
  · cases h
  · split at h
    · cases h
    · rename_i rcP disk1 pool1 hpin
      split at h
      · rename_i hrcP
        cases h
        simp at hrcP
      · rename_i hrcP
        push_neg at hrcP
        subst hrcP
        have hps := pinPage_pinSum hstrat hpin rfl
        split at h
        · cases h
        · rename_i rcL st2 page2 slot2 hloop
          split at h
          · rename_i hrcL
            cases h
            simp at hrcL
          · rename_i hrcL
            push_neg at hrcL
            subst hrcL
            have hlp := insertLoop_pinSum loopFuel pinFuel recordSize _ _ _ _ _ _ hps.2 hloop
            split at h
            · rename_i hmd
              simp only [Option.some.injEq, Prod.mk.injEq] at h
              exact absurd h.1 hmd
            · rename_i hmd
              push_neg at hmd
              split at h
              · rename_i hu2
                simp only [Option.some.injEq, Prod.mk.injEq] at h
                exact absurd h.1 hu2
              · rename_i hu2
                push_neg at hu2
                have hun := unpinPage_pinSum hu2
                rw [(setFrameData_pinSum _ _ _).1, (markDirty_pinSum _ _).1] at hun
                have hstrat2 := hun.2.trans
                  (((setFrameData_pinSum _ _ _).2.trans (markDirty_pinSum _ _).2).trans hlp.2)
                split at h
                · cases h
                · rename_i rcZ disk4 pool5 hpin0
                  split at h
                  · rename_i hrcZ
                    cases h
                    simp at hrcZ
                  · rename_i hrcZ
                    push_neg at hrcZ
                    subst hrcZ
                    have hps0 := pinPage_pinSum hstrat2 hpin0 rfl
                    cases h
                    simp only [] at hps0 hun hlp hps ⊢
                    omega



/-- C6 witness: `C6_insert_pin_leak` applied to inserting a record into the
concrete three-row table (the new record lands in slot 3 of page 1): the pin
sum rises by one. -/
theorem C6_insert_pin_leak_witness :
    c5State.pool.strategy = Strategy.LRU ∧
    ((insertRecord 10 5 5 c5State (45 :: encInt 9)).map (fun r => (r.1, pinSum r.2.1.pool))) =
      some (RC.OK, pinSum c5State.pool + 1) := by
  refine ⟨rfl, ?_⟩
  have hfst : ((insertRecord 10 5 5 c5State (45 :: encInt 9)).map (fun r => r.1)) =
      some RC.OK := by decide
  rcases hi : insertRecord 10 5 5 c5State (45 :: encInt 9) with _ | ⟨rc, st1, rid⟩
  · rw [hi] at hfst; cases hfst
  · rw [hi] at hfst
    simp only [Option.map_some', Option.some.injEq] at hfst
    subst hfst
    simp only [hi, Option.map_some', Option.some.injEq, Prod.mk.injEq, true_and]
    exact C6_insert_pin_leak 10 5 5 c5State _ st1 rid rfl hi

/-- C10 witness: `C10_delete_keeps_tuple_count` applied to deleting RID (1,0)
from the concrete three-row table. -/
theorem C10_delete_keeps_tuple_count_witness :
    ((deleteRecord 0 5 c5State ⟨1, 0⟩).map (fun r => getNumTuples r.2)) =
      some (getNumTuples c5State) := by
  rcases hd : deleteRecord 0 5 c5State ⟨1, 0⟩ with _ | ⟨rc, st1⟩
  · exact absurd hd (by decide)
  · simp [C10_delete_keeps_tuple_count 0 5 c5State ⟨1, 0⟩ rc st1 hd]

/-! ## B-index (`btree_mgr.c`)

The index stores at most two (key, RID) pairs per data page; page `i ≥ 1`
holds a "full" byte and the `(left, value1)`, `(mid, value2)` pairs of the
`Node` struct (the reserved `mother`/`leaf`/`right` fields are never read).
The 10-frame buffer pool underneath is abstracted as reliable storage — the
claims concern the entry bookkeeping, and every pin/unpin of these functions
addresses an existing page. -/

/-- One data page of the index. -/
structure BTPage where
  full : Bool
  left : RID
  value1 : Int
  mid : RID
  value2 : Int
  deriving Repr, DecidableEq

/-- `INIT_RID` from btree_mgr.c:14. -/
def INIT_RID : RID := ⟨-1, -1⟩

/-- The index state: the globals `lastPage` and the handle's `globalCount`,
plus the data pages (page `i` lives at list index `i - 1`). -/
structure BTState where
  lastPage : Nat
  globalCount : Int
  pages : List BTPage
  deriving Repr, DecidableEq

/-- A freshly loaded (zero-filled) page as the node layout decodes it. -/
def freshBTPage : BTPage :=
  { full := false, left := ⟨0, 0⟩, value1 := 0, mid := ⟨0, 0⟩, value2 := 0 }

/-- Read data page `i ≥ 1`. -/
def getBTPage (st : BTState) (i : Nat) : BTPage := st.pages.getD (i - 1) freshBTPage

/-- Write data page `i ≥ 1` (pinning a page beyond the current extent loads a
fresh zero page, which the caller immediately overwrites). -/
def putBTPage (st : BTState) (i : Nat) (pg : BTPage) : BTState :=
  if i - 1 < st.pages.length then { st with pages := st.pages.set (i - 1) pg }
  else
    { st with pages :=
        (st.pages ++ List.replicate (i - st.pages.length) freshBTPage).set (i - 1) pg }

/-- `insertKey` (btree_mgr.c:467): an empty tree starts page 1 with the entry
in the first slot; a full last page opens a new last page; otherwise the
entry fills the second slot and the page is marked full.  No branch checks
whether the key is already present. -/
def insertKey (st : BTState) (key : Int) (rid : RID) : RC × BTState :=
  match st.lastPage with
  | 0 =>
    let node : BTPage := { full := false, left := rid, value1 := key, mid := INIT_RID, value2 := -1 }
    let st1 := putBTPage { st with lastPage := 1 } 1 node
    (RC.OK, { st1 with globalCount := st1.globalCount + 1 })
  | _ + 1 =>
    let pg := getBTPage st st.lastPage
    if pg.full = true then
      let node : BTPage :=
        { full := false, left := rid, value1 := key, mid := INIT_RID, value2 := -1 }
      let st1 := putBTPage { st with lastPage := st.lastPage + 1 } (st.lastPage + 1) node
      (RC.OK, { st1 with globalCount := st1.globalCount + 1 })
    else
      let node := { pg with mid := rid, value2 := key, full := true }
      let st1 := putBTPage st st.lastPage node
      (RC.OK, { st1 with globalCount := st1.globalCount + 1 })

/-- The search loop of `deleteKey` (btree_mgr.c:611): the first page from `i`
(with `rem` pages left to scan) whose `value1` or `value2` equals the key,
with the slot number (1 or 2; `value1` is checked first). -/
def findKeySlotFrom (st : BTState) (key : Int) : Nat → Nat → Option (Nat × Nat)
  | _, 0 => none
  | i, rem + 1 =>
    let pg := getBTPage st i
    if pg.value1 = key then some (i, 1)
    else if pg.value2 = key then some (i, 2)
    else findKeySlotFrom st key (i + 1) rem

/-- The full search of `deleteKey`: pages 1..lastPage. -/
def findKeySlot (st : BTState) (key : Int) : Option (Nat × Nat) :=
  findKeySlotFrom st key 1 st.lastPage

/-- `deleteKey` (btree_mgr.c:593): locate the key, clear its slot, and keep
storage dense by moving the last page's last entry into the hole; an emptied
last page decrements `lastPage`. -/
def deleteKey (st : BTState) (key : Int) : RC × BTState :=
  match findKeySlot st key with
  | none => (RC.IM_KEY_NOT_FOUND, st)
  | some (i, valueNum) =>
    if i = st.lastPage then
      let node := getBTPage st st.lastPage
      if valueNum = 2 then
        let node1 := { node with mid := INIT_RID, value2 := -1, full := false }
        let st1 := putBTPage st st.lastPage node1
        (RC.OK, { st1 with globalCount := st.globalCount - 1 })
      else
        if node.full = true then
          let node1 :=
            { node with
              left := node.mid
              value1 := node.value2
              mid := INIT_RID
              value2 := -1
              full := false }
          let st1 := putBTPage st st.lastPage node1
          (RC.OK, { st1 with globalCount := st.globalCount - 1 })
        else
          let node1 := { node with left := INIT_RID, value1 := -1 }
          let st1 := putBTPage st st.lastPage node1
          (RC.OK, { st1 with lastPage := st1.lastPage - 1, globalCount := st.globalCount - 1 })
    else
      let lastNode := getBTPage st st.lastPage
      if lastNode.full = true then
        let moveRID := lastNode.mid
        let moveValue := lastNode.value2
        let last1 := { lastNode with full := false, mid := INIT_RID, value2 := -1 }
        let st1 := putBTPage st st.lastPage last1
        let tgt := getBTPage st1 i
        let tgt1 := if valueNum = 1 then { tgt with left := moveRID, value1 := moveValue }
                    else { tgt with mid := moveRID, value2 := moveValue }
        let st2 := putBTPage st1 i tgt1
        (RC.OK, { st2 with globalCount := st.globalCount - 1 })
      else
        let moveRID := lastNode.left
        let moveValue := lastNode.value1
        let last1 := { lastNode with left := INIT_RID, value1 := -1 }
        let st1 := putBTPage st st.lastPage last1
        let st2 := { st1 with lastPage := st1.lastPage - 1 }
        let tgt := getBTPage st2 i
        let tgt1 := if valueNum = 1 then { tgt with left := moveRID, value1 := moveValue }
                    else { tgt with mid := moveRID, value2 := moveValue }
        let st3 := putBTPage st2 i tgt1
        (RC.OK, { st3 with globalCount := st.globalCount - 1 })

/-- The live entries of one page: `value1` and `value2` when they are not the
`-1` cleared sentinel (this is exactly what `openTreeScan` collects). -/
def pageKeys (pg : BTPage) : List Int :=
  (if pg.value1 ≠ -1 then [pg.value1] else []) ++ (if pg.value2 ≠ -1 then [pg.value2] else [])

/-- The live keys of pages 1..n, in page order. -/
def keysUpTo (st : BTState) : Nat → List Int
  | 0 => []
  | n + 1 => keysUpTo st n ++ pageKeys (getBTPage st (n + 1))

/-- All live keys of the tree. -/
def treeKeys (st : BTState) : List Int := keysUpTo st st.lastPage

/-- The structural invariant of the flat index (spec §4.5): pages 1..lastPage
exist; every such page has a live first slot; the full flag tracks the second
slot; every page before the last is full; and `globalCount` counts the live
entries.  The last page being nonempty unless the tree is empty follows from
the live-first-slot conjunct. -/
def btInvariant (st : BTState) : Prop :=
  st.lastPage ≤ st.pages.length ∧
  (∀ j < st.lastPage, (getBTPage st (j + 1)).value1 ≠ -1) ∧
  (∀ j < st.lastPage, ((getBTPage st (j + 1)).full = true ↔ (getBTPage st (j + 1)).value2 ≠ -1)) ∧
  (∀ j < st.lastPage, j + 1 < st.lastPage → (getBTPage st (j + 1)).full = true) ∧
  st.globalCount = ((treeKeys st).length : Int)

/-- Auxiliary: reading back the page just written. -/
theorem getBTPage_putBTPage_self (st : BTState) (i : Nat) (pg : BTPage) (hi : 1 ≤ i) :
    getBTPage (putBTPage st i pg) i = pg := by
  rw [putBTPage]
  split
  · rename_i hlt
    simp only [getBTPage]
    rw [List.getD_eq_getElem?_getD, List.getElem?_set_self hlt, Option.getD_some]
  · rename_i hge
    push_neg at hge
    simp only [getBTPage]
    rw [List.getD_eq_getElem?_getD, List.getElem?_set_self (by simp; omega), Option.getD_some]

/-- Auxiliary: a page write leaves every other page alone (including the
virtual fresh pages beyond the stored list). -/
theorem getBTPage_putBTPage_ne (st : BTState) (i j : Nat) (pg : BTPage)
    (hi : 1 ≤ i) (hj : 1 ≤ j) (hne : j ≠ i) :
    getBTPage (putBTPage st i pg) j = getBTPage st j := by
  have hne1 : i - 1 ≠ j - 1 := by omega
  rw [putBTPage]
  split
  · simp only [getBTPage]
    rw [List.getD_eq_getElem?_getD, List.getD_eq_getElem?_getD, List.getElem?_set_ne hne1]
  · rename_i hge
    push_neg at hge
    simp only [getBTPage]
    rw [List.getD_eq_getElem?_getD, List.getD_eq_getElem?_getD, List.getElem?_set_ne hne1]
    by_cases hcase : j - 1 < st.pages.length
    · rw [List.getElem?_append_left hcase]
    · push_neg at hcase
      rw [List.getElem?_append_right hcase, List.getElem?_replicate,
        List.getElem?_eq_none hcase]
      split <;> rfl

/-- Auxiliary: a page write never shrinks the page list, and guarantees the
written index exists. -/
theorem putBTPage_length (st : BTState) (i : Nat) (pg : BTPage) (hi : 1 ≤ i) :
    st.pages.length ≤ (putBTPage st i pg).pages.length ∧
    i ≤ (putBTPage st i pg).pages.length := by
  rw [putBTPage]
  split
  · rename_i hlt
    simp only [List.length_set]
    omega
  · rename_i hge
    push_neg at hge
    simp only [List.length_set, List.length_append, List.length_replicate]
    omega

/-- Auxiliary: a page write changes neither `lastPage` nor `globalCount`. -/
theorem putBTPage_fields (st : BTState) (i : Nat) (pg : BTPage) :
    (putBTPage st i pg).lastPage = st.lastPage ∧
    (putBTPage st i pg).globalCount = st.globalCount := by
  rw [putBTPage]
  split <;> exact ⟨rfl, rfl⟩

/-- Auxiliary: `keysUpTo` only depends on the pages in range. -/
theorem keysUpTo_congr (st st1 : BTState) (n : Nat)
    (h : ∀ j, 1 ≤ j → j ≤ n → getBTPage st1 j = getBTPage st j) :
    keysUpTo st1 n = keysUpTo st n := by
  induction n with
  | zero => rfl
  | succ k ih =>
    rw [keysUpTo, keysUpTo, ih (fun j h1 h2 => h j h1 (by omega)),
      h (k + 1) (by omega) (le_refl _)]

/-- Auxiliary: states with the same pages have the same keys in any range. -/
theorem keysUpTo_ext (s t : BTState) (n : Nat) (h : t.pages = s.pages) :
    keysUpTo t n = keysUpTo s n :=
  keysUpTo_congr s t n (fun j _ _ => by simp only [getBTPage, h])

/-- Auxiliary: how one page write changes the number of live keys of pages
1..n. -/
theorem keysUpTo_put_length (st : BTState) (i : Nat) (pg : BTPage) (n : Nat)
    (hi : 1 ≤ i) (hin : i ≤ n) :
    (keysUpTo (putBTPage st i pg) n).length + (pageKeys (getBTPage st i)).length
      = (keysUpTo st n).length + (pageKeys pg).length := by
  induction n with
  | zero => omega
  | succ k ih =>
    by_cases hik : i = k + 1
    · subst hik
      rw [keysUpTo, keysUpTo, getBTPage_putBTPage_self st (k + 1) pg hi,
        keysUpTo_congr st (putBTPage st (k + 1) pg) k
          (fun j h1 h2 => getBTPage_putBTPage_ne st (k + 1) j pg hi h1 (by omega))]
      simp only [List.length_append]
      omega
    · have hik2 : i ≤ k := by omega
      rw [keysUpTo, keysUpTo,
        getBTPage_putBTPage_ne st i (k + 1) pg hi (by omega) (Ne.symm hik)]
      have := ih hik2
      simp only [List.length_append]
      omega

/-- Auxiliary: what the `deleteKey` search loop guarantees about a hit. -/
theorem findKeySlotFrom_spec (st : BTState) (key : Int) :
    ∀ (rem i : Nat) (res : Nat × Nat), findKeySlotFrom st key i rem = some res →
      i ≤ res.1 ∧ res.1 < i + rem ∧
      ((res.2 = 1 ∧ (getBTPage st res.1).value1 = key) ∨
       (res.2 = 2 ∧ (getBTPage st res.1).value2 = key)) := by
  intro rem
  induction rem with
  | zero => intro i res h; cases h
  | succ k ih =>
    intro i res h
    simp only [findKeySlotFrom] at h
    split at h
    · rename_i h1
      cases h
      exact ⟨le_refl _, by omega, Or.inl ⟨rfl, h1⟩⟩
    · split at h
      · rename_i h2
        cases h
        exact ⟨le_refl _, by omega, Or.inr ⟨rfl, h2⟩⟩
      · have := ih (i + 1) res h
        exact ⟨by omega, by omega, this.2.2⟩

/-- Auxiliary: under the invariant, a nonempty tree's last page holds at
least one live entry. -/
theorem lastPage_nonempty {st : BTState} (h : btInvariant st) (hpos : 0 < st.lastPage) :
    pageKeys (getBTPage st st.lastPage) ≠ [] := by
  obtain ⟨-, hv1, -, -, -⟩ := h
  have hlive := hv1 (st.lastPage - 1) (by omega)
  have h2 : st.lastPage - 1 + 1 = st.lastPage := by omega
  rw [h2] at hlive
  simp [pageKeys, hlive]

/-- Auxiliary: changing only `globalCount` changes no page. -/
theorem getBTPage_setCount (st : BTState) (c : Int) (j : Nat) :
    getBTPage { st with globalCount := c } j = getBTPage st j := rfl

/-- Auxiliary: changing only `globalCount` or `lastPage` changes no keys. -/
theorem keysUpTo_setCount (st : BTState) (c : Int) (n : Nat) :
    keysUpTo { st with globalCount := c } n = keysUpTo st n :=
  keysUpTo_congr st _ n (fun _ _ _ => rfl)

/-- Auxiliary: appending a fresh one-entry page as the new last page preserves
the structural invariant (shared by the empty-tree and full-last-page branches
of `insertKey`). -/
theorem insertNew_inv (n : Nat) (gc : Int) (pgs : List BTPage) (key : Int) (rid : RID)
    (hInv : btInvariant { lastPage := n, globalCount := gc, pages := pgs })
    (hkey : key ≠ -1)
    (hfull : ∀ j, j + 1 = n →
      (getBTPage { lastPage := n, globalCount := gc, pages := pgs } (j + 1)).full = true) :
    ∀ st1, st1 = putBTPage { lastPage := n + 1, globalCount := gc, pages := pgs } (n + 1)
        { full := false, left := rid, value1 := key, mid := INIT_RID, value2 := -1 } →
      btInvariant { st1 with globalCount := st1.globalCount + 1 } := by
  obtain ⟨hlen, hv1, hf2, hpre, hcount⟩ := hInv
  simp only [] at hlen hv1 hf2 hpre hcount
  intro st1 hst1
  set node : BTPage :=
    { full := false, left := rid, value1 := key, mid := INIT_RID, value2 := -1 } with hnode
  have hput := putBTPage_length { lastPage := n + 1, globalCount := gc, pages := pgs }
    (n + 1) node (by omega)
  have hself := getBTPage_putBTPage_self { lastPage := n + 1, globalCount := gc, pages := pgs }
    (n + 1) node (by omega)
  have hfields := putBTPage_fields { lastPage := n + 1, globalCount := gc, pages := pgs }
    (n + 1) node
  rw [← hst1] at hput hself hfields
  have hne : ∀ j, 1 ≤ j → j ≠ n + 1 →
      getBTPage st1 j = getBTPage { lastPage := n, globalCount := gc, pages := pgs } j := by
    intro j h1 h2
    rw [hst1]
    exact getBTPage_putBTPage_ne _ _ _ _ (by omega) h1 h2
  have hgp : ∀ (a : Nat) (c : Int) (j : Nat),
      getBTPage { lastPage := a, globalCount := c, pages := st1.pages } j
      = getBTPage st1 j := fun _ _ _ => rfl
  have hkeys : ∀ (a : Nat) (c : Int) (k : Nat),
      keysUpTo { lastPage := a, globalCount := c, pages := st1.pages } k
      = keysUpTo st1 k := fun a c k => keysUpTo_ext st1 _ k rfl
  simp only [btInvariant, treeKeys, hgp, hkeys, hfields.1, hfields.2]
  refine ⟨hput.2, ?_, ?_, ?_, ?_⟩
  · intro j hj
    by_cases hj1 : j + 1 = n + 1
    · rw [hj1, hself]
      exact hkey
    · rw [hne (j + 1) (by omega) hj1]
      exact hv1 j (by omega)
  · intro j hj
    by_cases hj1 : j + 1 = n + 1
    · rw [hj1, hself]
      simp [hnode]
    · rw [hne (j + 1) (by omega) hj1]
      exact hf2 j (by omega)
  · intro j hj hlt
    rw [hne (j + 1) (by omega) (by omega)]
    by_cases hje : j + 1 = n
    · exact hfull j hje
    · exact hpre j (by omega) (by omega)
  · rw [keysUpTo, hself]
    have hk : keysUpTo st1 n = keysUpTo { lastPage := n, globalCount := gc, pages := pgs } n :=
      keysUpTo_congr _ st1 n (fun j h1 h2 => hne j h1 (by omega))
    rw [hk]
    simp only [treeKeys] at hcount
    simp [pageKeys, hnode, hkey]
    omega

/-- Auxiliary: filling the free second slot of the last page preserves the
structural invariant (the not-full branch of `insertKey`). -/
theorem insertFill_inv (n : Nat) (gc : Int) (pgs : List BTPage) (key : Int) (rid : RID)
    (hInv : btInvariant { lastPage := n + 1, globalCount := gc, pages := pgs })
    (hkey : key ≠ -1)
    (hnf : ¬ (getBTPage { lastPage := n + 1, globalCount := gc, pages := pgs } (n + 1)).full
      = true) :
    ∀ st1, st1 = putBTPage { lastPage := n + 1, globalCount := gc, pages := pgs } (n + 1)
        { getBTPage { lastPage := n + 1, globalCount := gc, pages := pgs } (n + 1) with
          mid := rid
          value2 := key
          full := true } →
      btInvariant { st1 with globalCount := st1.globalCount + 1 } := by
  obtain ⟨hlen, hv1, hf2, hpre, hcount⟩ := hInv
  simp only [] at hlen hv1 hf2 hpre hcount
  intro st1 hst1
  set pg := getBTPage { lastPage := n + 1, globalCount := gc, pages := pgs } (n + 1) with hpg
  set node : BTPage := { pg with mid := rid, value2 := key, full := true } with hnode
  have hv1n : pg.value1 ≠ -1 := hv1 n (by omega)
  have hv2n : pg.value2 = -1 := by
    by_contra h
    exact hnf ((hf2 n (by omega)).2 h)
  have hput := putBTPage_length { lastPage := n + 1, globalCount := gc, pages := pgs }
    (n + 1) node (by omega)
  have hself := getBTPage_putBTPage_self { lastPage := n + 1, globalCount := gc, pages := pgs }
    (n + 1) node (by omega)
  have hfields := putBTPage_fields { lastPage := n + 1, globalCount := gc, pages := pgs }
    (n + 1) node
  rw [← hst1] at hput hself hfields
  have hne : ∀ j, 1 ≤ j → j ≠ n + 1 →
      getBTPage st1 j = getBTPage { lastPage := n + 1, globalCount := gc, pages := pgs } j := by
    intro j h1 h2
    rw [hst1]
    exact getBTPage_putBTPage_ne _ _ _ _ (by omega) h1 h2
  have hgp : ∀ (a : Nat) (c : Int) (j : Nat),
      getBTPage { lastPage := a, globalCount := c, pages := st1.pages } j
      = getBTPage st1 j := fun _ _ _ => rfl
  have hkeys : ∀ (a : Nat) (c : Int) (k : Nat),
      keysUpTo { lastPage := a, globalCount := c, pages := st1.pages } k
      = keysUpTo st1 k := fun a c k => keysUpTo_ext st1 _ k rfl
  simp only [btInvariant, treeKeys, hgp, hkeys, hfields.1, hfields.2]
  refine ⟨hput.2, ?_, ?_, ?_, ?_⟩
  · intro j hj
    by_cases hj1 : j + 1 = n + 1
    · rw [hj1, hself]
      exact hv1n
    · rw [hne (j + 1) (by omega) hj1]
      exact hv1 j (by omega)
  · intro j hj
    by_cases hj1 : j + 1 = n + 1
    · rw [hj1, hself, hnode]
      simp [hkey]
    · rw [hne (j + 1) (by omega) hj1]
      exact hf2 j (by omega)
  · intro j hj hlt
    rw [hne (j + 1) (by omega) (by omega)]
    exact hpre j (by omega) hlt
  · rw [keysUpTo, hself]
    have hk : keysUpTo st1 n
        = keysUpTo { lastPage := n + 1, globalCount := gc, pages := pgs } n :=
      keysUpTo_congr _ st1 n (fun j h1 h2 => hne j h1 (by omega))
    rw [hk]
    simp only [treeKeys, keysUpTo] at hcount
    rw [← hpg] at hcount
    simp [pageKeys, hnode, hkey, hv1n, hv2n] at hcount ⊢
    omega

/-- Auxiliary: `insertKey` with a key distinct from the −1 sentinel preserves
the structural invariant. -/
theorem insertKey_inv (st : BTState) (key : Int) (rid : RID)
    (hInv : btInvariant st) (hkey : key ≠ -1) :
    btInvariant (insertKey st key rid).2 := by
  obtain ⟨lp, gc, pgs⟩ := st
  obtain ⟨hlen, hv1, hf2, hpre, hcount⟩ := hInv
  simp only [] at hlen hv1 hf2 hpre hcount
  cases lp with
  | zero =>
    simp only [insertKey, btInvariant]
    set node : BTPage :=
      { full := false, left := rid, value1 := key, mid := INIT_RID, value2 := -1 } with hnode
    set P := putBTPage { lastPage := 1, globalCount := gc, pages := pgs } 1 node with hP
    have hput := putBTPage_length { lastPage := 1, globalCount := gc, pages := pgs } 1 node
      (le_refl 1)
    have hself := getBTPage_putBTPage_self { lastPage := 1, globalCount := gc, pages := pgs } 1
      node (le_refl 1)
    have hfields := putBTPage_fields { lastPage := 1, globalCount := gc, pages := pgs } 1 node
    rw [← hP] at hput hself hfields
    simp only [] at hput hfields
    simp only [treeKeys, hfields.1, hfields.2]
    have hgp : ∀ j, getBTPage { lastPage := 1, globalCount := gc + 1, pages := P.pages } j
        = getBTPage P j := fun _ => rfl
    have hkeys : ∀ n, keysUpTo { lastPage := 1, globalCount := gc + 1, pages := P.pages } n
        = keysUpTo P n := fun n => keysUpTo_ext P _ n rfl
    simp only [hgp, hkeys]
    refine ⟨hput.2, ?_, ?_, ?_, ?_⟩
    · intro j hj
      have hj0 : j = 0 := by omega
      subst hj0
      simp only [Nat.zero_add, hself, hnode]
      exact hkey
    · intro j hj
      have hj0 : j = 0 := by omega
      subst hj0
      simp [Nat.zero_add, hself, hnode]
    · intro j hj
      omega
    · simp only [treeKeys, keysUpTo] at hcount
      simp only [keysUpTo, Nat.zero_add, hself, hnode, pageKeys]
      simp [hkey]
      simpa using hcount
  | succ m =>
    simp only [insertKey]
    split
    · rename_i hfl
      exact insertNew_inv (m + 1) gc pgs key rid ⟨hlen, hv1, hf2, hpre, hcount⟩ hkey
        (fun j hj => by rw [hj]; exact hfl) _ rfl
    · rename_i hnf
      exact insertFill_inv m gc pgs key rid ⟨hlen, hv1, hf2, hpre, hcount⟩ hkey hnf _ rfl

/-- Auxiliary: overwriting the last page with a page holding exactly its first
entry (second slot cleared, full flag down) preserves the invariant with the
count decremented (the two single-page branches of `deleteKey`). -/
theorem putLast_shrink_inv (st : BTState) (node1 : BTPage)
    (hInv : btInvariant st) (hpos : 0 < st.lastPage)
    (h1 : node1.value1 ≠ -1) (hf : node1.full = false) (h2 : node1.value2 = -1)
    (hLv2 : (getBTPage st st.lastPage).value2 ≠ -1) :
    ∀ st1, st1 = putBTPage st st.lastPage node1 →
      btInvariant { st1 with globalCount := st.globalCount - 1 } := by
  obtain ⟨hlen, hv1, hf2, hpre, hcount⟩ := hInv
  have hL1 : st.lastPage - 1 + 1 = st.lastPage := by omega
  have hv1L : (getBTPage st st.lastPage).value1 ≠ -1 := by
    have h := hv1 (st.lastPage - 1) (by omega)
    rwa [hL1] at h
  intro st1 hst1
  have hput := putBTPage_length st st.lastPage node1 hpos
  have hself := getBTPage_putBTPage_self st st.lastPage node1 hpos
  have hfields := putBTPage_fields st st.lastPage node1
  rw [← hst1] at hput hself hfields
  have hne : ∀ j, 1 ≤ j → j ≠ st.lastPage → getBTPage st1 j = getBTPage st j := by
    intro j hj1 hj2
    rw [hst1]
    exact getBTPage_putBTPage_ne _ _ _ _ hpos hj1 hj2
  have hkul := keysUpTo_put_length st st.lastPage node1 st.lastPage hpos (le_refl _)
  rw [← hst1] at hkul
  have hgp : ∀ (a : Nat) (c : Int) (j : Nat),
      getBTPage { lastPage := a, globalCount := c, pages := st1.pages } j
      = getBTPage st1 j := fun _ _ _ => rfl
  have hkeys : ∀ (a : Nat) (c : Int) (k : Nat),
      keysUpTo { lastPage := a, globalCount := c, pages := st1.pages } k
      = keysUpTo st1 k := fun a c k => keysUpTo_ext st1 _ k rfl
  simp only [btInvariant, treeKeys, hgp, hkeys, hfields.1, hfields.2]
  refine ⟨hput.2, ?_, ?_, ?_, ?_⟩
  · intro j hj
    by_cases hj1 : j + 1 = st.lastPage
    · rw [hj1, hself]
      exact h1
    · rw [hne (j + 1) (by omega) hj1]
      exact hv1 j hj
  · intro j hj
    by_cases hj1 : j + 1 = st.lastPage
    · rw [hj1, hself]
      simp [hf, h2]
    · rw [hne (j + 1) (by omega) hj1]
      exact hf2 j hj
  · intro j hj hlt
    rw [hne (j + 1) (by omega) (by omega)]
    exact hpre j hj hlt
  · have e1 : (pageKeys node1).length = 1 := by simp [pageKeys, h1, h2]
    have e2 : (pageKeys (getBTPage st st.lastPage)).length = 2 := by
      simp [pageKeys, hv1L, hLv2]
    simp only [treeKeys] at hcount
    omega

/-- Auxiliary: when the last page held a single entry, clearing it and
decrementing `lastPage` and the count preserves the invariant (the emptied
last-page branch of `deleteKey`; the page content written beyond the new
`lastPage` is irrelevant). -/
theorem dropLast_inv (st : BTState) (node1 : BTPage)
    (hInv : btInvariant st) (hpos : 0 < st.lastPage)
    (hLv2 : (getBTPage st st.lastPage).value2 = -1) :
    ∀ st1, st1 = putBTPage st st.lastPage node1 →
      btInvariant { st1 with
        lastPage := st1.lastPage - 1
        globalCount := st.globalCount - 1 } := by
  obtain ⟨hlen, hv1, hf2, hpre, hcount⟩ := hInv
  have hL1 : st.lastPage - 1 + 1 = st.lastPage := by omega
  have hv1L : (getBTPage st st.lastPage).value1 ≠ -1 := by
    have h := hv1 (st.lastPage - 1) (by omega)
    rwa [hL1] at h
  intro st1 hst1
  have hput := putBTPage_length st st.lastPage node1 hpos
  have hfields := putBTPage_fields st st.lastPage node1
  rw [← hst1] at hput hfields
  have hne : ∀ j, 1 ≤ j → j ≠ st.lastPage → getBTPage st1 j = getBTPage st j := by
    intro j hj1 hj2
    rw [hst1]
    exact getBTPage_putBTPage_ne _ _ _ _ hpos hj1 hj2
  have hk : keysUpTo st1 (st.lastPage - 1) = keysUpTo st (st.lastPage - 1) :=
    keysUpTo_congr st st1 _ (fun j hj1 hj2 => hne j hj1 (by omega))
  have hCL : keysUpTo st st.lastPage
      = keysUpTo st (st.lastPage - 1) ++ pageKeys (getBTPage st st.lastPage) := by
    conv_lhs => rw [← hL1, keysUpTo]
    rw [hL1]
  have hgp : ∀ (a : Nat) (c : Int) (j : Nat),
      getBTPage { lastPage := a, globalCount := c, pages := st1.pages } j
      = getBTPage st1 j := fun _ _ _ => rfl
  have hkeys : ∀ (a : Nat) (c : Int) (k : Nat),
      keysUpTo { lastPage := a, globalCount := c, pages := st1.pages } k
      = keysUpTo st1 k := fun a c k => keysUpTo_ext st1 _ k rfl
  simp only [btInvariant, treeKeys, hgp, hkeys, hfields.1]
  refine ⟨by omega, ?_, ?_, ?_, ?_⟩
  · intro j hj
    rw [hne (j + 1) (by omega) (by omega)]
    exact hv1 j (by omega)
  · intro j hj
    rw [hne (j + 1) (by omega) (by omega)]
    exact hf2 j (by omega)
  · intro j hj hlt
    rw [hne (j + 1) (by omega) (by omega)]
    exact hpre j (by omega) (by omega)
  · rw [hk]
    have e2 : (pageKeys (getBTPage st st.lastPage)).length = 1 := by
      simp [pageKeys, hv1L, hLv2]
    have hlenCL := congrArg List.length hCL
    simp only [List.length_append] at hlenCL
    simp only [treeKeys] at hcount
    omega

/-- Auxiliary: a page write commutes with changing `lastPage`. -/
theorem putBTPage_setLast (s : BTState) (l : Nat) (i : Nat) (pg : BTPage) :
    putBTPage { s with lastPage := l } i pg
      = { putBTPage s i pg with lastPage := l } := by
  by_cases h : i - 1 < s.pages.length
  · simp [putBTPage, h]
  · simp [putBTPage, h]

/-- Auxiliary: moving the second entry of a full last page into a hole on an
earlier page preserves the invariant with the count decremented (the full
last-page move branch of `deleteKey`). -/
theorem movePair_inv (st : BTState) (i : Nat) (last1 tgt1 : BTPage)
    (hInv : btInvariant st) (hi1 : 1 ≤ i) (hiL : i < st.lastPage)
    (hl1 : last1.value1 ≠ -1) (hlf : last1.full = false) (hl2 : last1.value2 = -1)
    (hLv2 : (getBTPage st st.lastPage).value2 ≠ -1)
    (ht1 : tgt1.value1 ≠ -1) (htf : tgt1.full = true) (ht2 : tgt1.value2 ≠ -1) :
    ∀ st2, st2 = putBTPage (putBTPage st st.lastPage last1) i tgt1 →
      btInvariant { st2 with globalCount := st.globalCount - 1 } := by
  obtain ⟨hlen, hv1, hf2, hpre, hcount⟩ := hInv
  have hpos : 0 < st.lastPage := by omega
  have hL1 : st.lastPage - 1 + 1 = st.lastPage := by omega
  have hi0 : i - 1 + 1 = i := by omega
  have hv1L : (getBTPage st st.lastPage).value1 ≠ -1 := by
    have h := hv1 (st.lastPage - 1) (by omega)
    rwa [hL1] at h
  have hv1i : (getBTPage st i).value1 ≠ -1 := by
    have h := hv1 (i - 1) (by omega)
    rwa [hi0] at h
  have hfulli : (getBTPage st i).full = true := by
    have h := hpre (i - 1) (by omega) (by omega)
    rwa [hi0] at h
  have hv2i : (getBTPage st i).value2 ≠ -1 := by
    have h := hf2 (i - 1) (by omega)
    rw [hi0] at h
    exact h.1 hfulli
  intro st2 hst2
  have hput1 := putBTPage_length st st.lastPage last1 hpos
  have hself1 := getBTPage_putBTPage_self st st.lastPage last1 hpos
  have hfields1 := putBTPage_fields st st.lastPage last1
  have hne1 : ∀ j, 1 ≤ j → j ≠ st.lastPage →
      getBTPage (putBTPage st st.lastPage last1) j = getBTPage st j := by
    intro j hj1 hj2
    exact getBTPage_putBTPage_ne _ _ _ _ hpos hj1 hj2
  have hput2 := putBTPage_length (putBTPage st st.lastPage last1) i tgt1 hi1
  have hself2 := getBTPage_putBTPage_self (putBTPage st st.lastPage last1) i tgt1 hi1
  have hfields2 := putBTPage_fields (putBTPage st st.lastPage last1) i tgt1
  rw [← hst2] at hput2 hself2 hfields2
  have hne2 : ∀ j, 1 ≤ j → j ≠ i →
      getBTPage st2 j = getBTPage (putBTPage st st.lastPage last1) j := by
    intro j hj1 hj2
    rw [hst2]
    exact getBTPage_putBTPage_ne _ _ _ _ hi1 hj1 hj2
  have hgp : ∀ (a : Nat) (c : Int) (j : Nat),
      getBTPage { lastPage := a, globalCount := c, pages := st2.pages } j
      = getBTPage st2 j := fun _ _ _ => rfl
  have hkeys : ∀ (a : Nat) (c : Int) (k : Nat),
      keysUpTo { lastPage := a, globalCount := c, pages := st2.pages } k
      = keysUpTo st2 k := fun a c k => keysUpTo_ext st2 _ k rfl
  simp only [btInvariant, treeKeys, hgp, hkeys, hfields2.1, hfields1.1]
  refine ⟨by omega, ?_, ?_, ?_, ?_⟩
  · intro j hj
    by_cases hji : j + 1 = i
    · rw [hji, hself2]
      exact ht1
    · by_cases hjL : j + 1 = st.lastPage
      · rw [hne2 (j + 1) (by omega) hji, hjL, hself1]
        exact hl1
      · rw [hne2 (j + 1) (by omega) hji, hne1 (j + 1) (by omega) hjL]
        exact hv1 j hj
  · intro j hj
    by_cases hji : j + 1 = i
    · rw [hji, hself2]
      simp [htf, ht2]
    · by_cases hjL : j + 1 = st.lastPage
      · rw [hne2 (j + 1) (by omega) hji, hjL, hself1]
        simp [hlf, hl2]
      · rw [hne2 (j + 1) (by omega) hji, hne1 (j + 1) (by omega) hjL]
        exact hf2 j hj
  · intro j hj hlt
    by_cases hji : j + 1 = i
    · rw [hji, hself2]
      exact htf
    · rw [hne2 (j + 1) (by omega) hji, hne1 (j + 1) (by omega) (by omega)]
      exact hpre j hj hlt
  · have hti : getBTPage (putBTPage st st.lastPage last1) i = getBTPage st i :=
      hne1 i hi1 (by omega)
    have hkul2 := keysUpTo_put_length (putBTPage st st.lastPage last1) i tgt1
      st.lastPage hi1 (by omega)
    rw [← hst2, hti] at hkul2
    have hkul1 := keysUpTo_put_length st st.lastPage last1 st.lastPage hpos (le_refl _)
    have e1 : (pageKeys tgt1).length = 2 := by simp [pageKeys, ht1, ht2]
    have e2 : (pageKeys (getBTPage st i)).length = 2 := by simp [pageKeys, hv1i, hv2i]
    have e3 : (pageKeys (getBTPage st st.lastPage)).length = 2 := by
      simp [pageKeys, hv1L, hLv2]
    have e4 : (pageKeys last1).length = 1 := by simp [pageKeys, hl1, hl2]
    simp only [treeKeys] at hcount
    omega

/-- Auxiliary: moving the single entry of a non-full last page into a hole on
an earlier page, dropping the emptied last page, preserves the invariant with
the count decremented (the non-full last-page move branch of `deleteKey`). -/
theorem moveSingle_inv (st : BTState) (i : Nat) (last1 tgt1 : BTPage)
    (hInv : btInvariant st) (hi1 : 1 ≤ i) (hiL : i < st.lastPage)
    (hLv2 : (getBTPage st st.lastPage).value2 = -1)
    (ht1 : tgt1.value1 ≠ -1) (htf : tgt1.full = true) (ht2 : tgt1.value2 ≠ -1) :
    ∀ st1, st1 = putBTPage st st.lastPage last1 →
      ∀ st3, st3 = putBTPage { st1 with lastPage := st1.lastPage - 1 } i tgt1 →
        btInvariant { st3 with globalCount := st.globalCount - 1 } := by
  obtain ⟨hlen, hv1, hf2, hpre, hcount⟩ := hInv
  have hpos : 0 < st.lastPage := by omega
  have hL1 : st.lastPage - 1 + 1 = st.lastPage := by omega
  have hi0 : i - 1 + 1 = i := by omega
  have hv1L : (getBTPage st st.lastPage).value1 ≠ -1 := by
    have h := hv1 (st.lastPage - 1) (by omega)
    rwa [hL1] at h
  have hv1i : (getBTPage st i).value1 ≠ -1 := by
    have h := hv1 (i - 1) (by omega)
    rwa [hi0] at h
  have hfulli : (getBTPage st i).full = true := by
    have h := hpre (i - 1) (by omega) (by omega)
    rwa [hi0] at h
  have hv2i : (getBTPage st i).value2 ≠ -1 := by
    have h := hf2 (i - 1) (by omega)
    rw [hi0] at h
    exact h.1 hfulli
  intro st1 hst1 st3 hst3
  rw [putBTPage_setLast] at hst3
  have hput1 := putBTPage_length st st.lastPage last1 hpos
  have hfields1 := putBTPage_fields st st.lastPage last1
  rw [← hst1] at hput1 hfields1
  have hne1 : ∀ j, 1 ≤ j → j ≠ st.lastPage → getBTPage st1 j = getBTPage st j := by
    intro j hj1 hj2
    rw [hst1]
    exact getBTPage_putBTPage_ne _ _ _ _ hpos hj1 hj2
  have hp3 : st3.pages = (putBTPage st1 i tgt1).pages := by rw [hst3]
  have hl3 : st3.lastPage = st1.lastPage - 1 := by rw [hst3]
  have hg3 : ∀ j, getBTPage st3 j = getBTPage (putBTPage st1 i tgt1) j := by
    intro j
    simp only [getBTPage, hp3]
  have hself3 : getBTPage st3 i = tgt1 := by
    rw [hg3]
    exact getBTPage_putBTPage_self st1 i tgt1 hi1
  have hne3 : ∀ j, 1 ≤ j → j ≠ i → getBTPage st3 j = getBTPage st1 j := by
    intro j hj1 hj2
    rw [hg3]
    exact getBTPage_putBTPage_ne _ _ _ _ hi1 hj1 hj2
  have hput3 : st1.pages.length ≤ st3.pages.length ∧ i ≤ st3.pages.length := by
    rw [hp3]
    exact putBTPage_length st1 i tgt1 hi1
  have hk3 : ∀ k, keysUpTo st3 k = keysUpTo (putBTPage st1 i tgt1) k := fun k =>
    keysUpTo_ext (putBTPage st1 i tgt1) st3 k hp3
  have hkul3 := keysUpTo_put_length st1 i tgt1 (st.lastPage - 1) hi1 (by omega)
  rw [← hk3 (st.lastPage - 1)] at hkul3
  have hti : getBTPage st1 i = getBTPage st i := hne1 i hi1 (by omega)
  rw [hti] at hkul3
  have hkk : keysUpTo st1 (st.lastPage - 1) = keysUpTo st (st.lastPage - 1) :=
    keysUpTo_congr st st1 _ (fun j hj1 hj2 => hne1 j hj1 (by omega))
  rw [hkk] at hkul3
  have hCL : keysUpTo st st.lastPage
      = keysUpTo st (st.lastPage - 1) ++ pageKeys (getBTPage st st.lastPage) := by
    conv_lhs => rw [← hL1, keysUpTo]
    rw [hL1]
  have hgp : ∀ (a : Nat) (c : Int) (j : Nat),
      getBTPage { lastPage := a, globalCount := c, pages := st3.pages } j
      = getBTPage st3 j := fun _ _ _ => rfl
  have hkeys : ∀ (a : Nat) (c : Int) (k : Nat),
      keysUpTo { lastPage := a, globalCount := c, pages := st3.pages } k
      = keysUpTo st3 k := fun a c k => keysUpTo_ext st3 _ k rfl
  simp only [btInvariant, treeKeys, hgp, hkeys, hl3, hfields1.1]
  refine ⟨by omega, ?_, ?_, ?_, ?_⟩
  · intro j hj
    by_cases hji : j + 1 = i
    · rw [hji, hself3]
      exact ht1
    · rw [hne3 (j + 1) (by omega) hji, hne1 (j + 1) (by omega) (by omega)]
      exact hv1 j (by omega)
  · intro j hj
    by_cases hji : j + 1 = i
    · rw [hji, hself3]
      simp [htf, ht2]
    · rw [hne3 (j + 1) (by omega) hji, hne1 (j + 1) (by omega) (by omega)]
      exact hf2 j (by omega)
  · intro j hj hlt
    by_cases hji : j + 1 = i
    · rw [hji, hself3]
      exact htf
    · rw [hne3 (j + 1) (by omega) hji, hne1 (j + 1) (by omega) (by omega)]
      exact hpre j (by omega) (by omega)
  · have e1 : (pageKeys tgt1).length = 2 := by simp [pageKeys, ht1, ht2]
    have e2 : (pageKeys (getBTPage st i)).length = 2 := by simp [pageKeys, hv1i, hv2i]
    have e3 : (pageKeys (getBTPage st st.lastPage)).length = 1 := by
      simp [pageKeys, hv1L, hLv2]
    have hlenCL := congrArg List.length hCL
    simp only [List.length_append] at hlenCL
    simp only [treeKeys] at hcount
    omega

/-- Auxiliary: `deleteKey` with a key distinct from the −1 sentinel preserves
the structural invariant. -/
theorem deleteKey_inv (st : BTState) (key : Int)
    (hInv : btInvariant st) (hkey : key ≠ -1) :
    btInvariant (deleteKey st key).2 := by
  rcases hfind : findKeySlot st key with _ | ⟨i, vn⟩
  · simpa only [deleteKey, hfind] using hInv
  · have hfind2 : findKeySlotFrom st key 1 st.lastPage = some (i, vn) := hfind
    obtain ⟨hi1, hiup, hhit⟩ := findKeySlotFrom_spec st key st.lastPage 1 (i, vn) hfind2
    simp only [] at hi1 hiup hhit
    have hpos : 0 < st.lastPage := by omega
    obtain ⟨hlen, hv1, hf2, hpre, hcount⟩ := hInv
    have hL1 : st.lastPage - 1 + 1 = st.lastPage := by omega
    have hv1L : (getBTPage st st.lastPage).value1 ≠ -1 := by
      have h := hv1 (st.lastPage - 1) (by omega)
      rwa [hL1] at h
    have hf2L : (getBTPage st st.lastPage).full = true
        ↔ (getBTPage st st.lastPage).value2 ≠ -1 := by
      have h := hf2 (st.lastPage - 1) (by omega)
      rwa [hL1] at h
    simp only [deleteKey, hfind]
    split
    · rename_i hieq
      split
      · rename_i hvn2
        have hLv2 : (getBTPage st st.lastPage).value2 ≠ -1 := by
          rcases hhit with ⟨h1, _⟩ | ⟨_, h2⟩
          · exfalso
            omega
          · rw [← hieq, h2]
            exact hkey
        refine putLast_shrink_inv st _ ⟨hlen, hv1, hf2, hpre, hcount⟩ hpos ?_ ?_ ?_ hLv2 _ rfl
        · exact hv1L
        · rfl
        · rfl
      · rename_i hvn2
        split
        · rename_i hfl
          have hLv2 : (getBTPage st st.lastPage).value2 ≠ -1 := hf2L.1 hfl
          refine putLast_shrink_inv st _ ⟨hlen, hv1, hf2, hpre, hcount⟩ hpos ?_ ?_ ?_ hLv2 _ rfl
          · exact hLv2
          · rfl
          · rfl
        · rename_i hfl
          have hLv2 : (getBTPage st st.lastPage).value2 = -1 := by
            by_contra h
            exact hfl (hf2L.2 h)
          exact dropLast_inv st _ ⟨hlen, hv1, hf2, hpre, hcount⟩ hpos hLv2 _ rfl
    · rename_i hine
      have hiLt : i < st.lastPage := by omega
      have hi0 : i - 1 + 1 = i := by omega
      have hv1i : (getBTPage st i).value1 ≠ -1 := by
        have h := hv1 (i - 1) (by omega)
        rwa [hi0] at h
      have hfulli : (getBTPage st i).full = true := by
        have h := hpre (i - 1) (by omega) (by omega)
        rwa [hi0] at h
      have hv2i : (getBTPage st i).value2 ≠ -1 := by
        have h := hf2 (i - 1) (by omega)
        rw [hi0] at h
        exact h.1 hfulli
      split
      · rename_i hfl
        have hLv2 : (getBTPage st st.lastPage).value2 ≠ -1 := hf2L.1 hfl
        split
        · rename_i hvn1
          refine movePair_inv st i _ _ ⟨hlen, hv1, hf2, hpre, hcount⟩ hi1 hiLt
            ?_ ?_ ?_ hLv2 ?_ ?_ ?_ _ rfl
          · exact hv1L
          · rfl
          · rfl
          · exact hLv2
          · show (getBTPage (putBTPage st st.lastPage _) i).full = true
            rw [getBTPage_putBTPage_ne _ _ _ _ hpos hi1 hine]
            exact hfulli
          · show (getBTPage (putBTPage st st.lastPage _) i).value2 ≠ -1
            rw [getBTPage_putBTPage_ne _ _ _ _ hpos hi1 hine]
            exact hv2i
        · rename_i hvn1
          refine movePair_inv st i _ _ ⟨hlen, hv1, hf2, hpre, hcount⟩ hi1 hiLt
            ?_ ?_ ?_ hLv2 ?_ ?_ ?_ _ rfl
          · exact hv1L
          · rfl
          · rfl
          · show (getBTPage (putBTPage st st.lastPage _) i).value1 ≠ -1
            rw [getBTPage_putBTPage_ne _ _ _ _ hpos hi1 hine]
            exact hv1i
          · show (getBTPage (putBTPage st st.lastPage _) i).full = true
            rw [getBTPage_putBTPage_ne _ _ _ _ hpos hi1 hine]
            exact hfulli
          · exact hLv2
      · rename_i hfl
        have hLv2 : (getBTPage st st.lastPage).value2 = -1 := by
          by_contra h
          exact hfl (hf2L.2 h)
        have hput : ∀ pg : BTPage,
            getBTPage { putBTPage st st.lastPage pg with
              lastPage := (putBTPage st st.lastPage pg).lastPage - 1 } i
            = getBTPage st i := by
          intro pg
          have h0 : getBTPage { putBTPage st st.lastPage pg with
              lastPage := (putBTPage st st.lastPage pg).lastPage - 1 } i
              = getBTPage (putBTPage st st.lastPage pg) i := rfl
          rw [h0]
          exact getBTPage_putBTPage_ne _ _ _ _ hpos hi1 hine
        split
        · rename_i hvn1
          refine moveSingle_inv st i _ _ ⟨hlen, hv1, hf2, hpre, hcount⟩ hi1 hiLt hLv2
            ?_ ?_ ?_ _ rfl _ rfl
          · exact hv1L
          · show (getBTPage { putBTPage st st.lastPage _ with
                lastPage := (putBTPage st st.lastPage _).lastPage - 1 } i).full = true
            rw [hput]
            exact hfulli
          · show (getBTPage { putBTPage st st.lastPage _ with
                lastPage := (putBTPage st st.lastPage _).lastPage - 1 } i).value2 ≠ -1
            rw [hput]
            exact hv2i
        · rename_i hvn1
          refine moveSingle_inv st i _ _ ⟨hlen, hv1, hf2, hpre, hcount⟩ hi1 hiLt hLv2
            ?_ ?_ ?_ _ rfl _ rfl
          · show (getBTPage { putBTPage st st.lastPage _ with
                lastPage := (putBTPage st st.lastPage _).lastPage - 1 } i).value1 ≠ -1
            rw [hput]
            exact hv1i
          · show (getBTPage { putBTPage st st.lastPage _ with
                lastPage := (putBTPage st st.lastPage _).lastPage - 1 } i).full = true
            rw [hput]
            exact hfulli
          · exact hv1L

/-- C9 counterexample: `insertKey` does not preserve key uniqueness.  Starting
from the empty tree (whose keys are trivially unique), inserting key 5 yields
the unique key list [5]; inserting key 5 again succeeds and yields [5, 5],
which is not duplicate-free, because no branch of `insertKey`
(btree_mgr.c:467) checks whether the key is already present. -/
theorem C9_duplicate_keys_code :
    (insertKey ⟨0, 0, []⟩ 5 ⟨1, 0⟩).1 = RC.OK ∧
    treeKeys (insertKey ⟨0, 0, []⟩ 5 ⟨1, 0⟩).2 = [5] ∧
    (insertKey (insertKey ⟨0, 0, []⟩ 5 ⟨1, 0⟩).2 5 ⟨2, 0⟩).1 = RC.OK ∧
    treeKeys (insertKey (insertKey ⟨0, 0, []⟩ 5 ⟨1, 0⟩).2 5 ⟨2, 0⟩).2 = [5, 5] ∧
    ¬ (treeKeys (insertKey (insertKey ⟨0, 0, []⟩ 5 ⟨1, 0⟩).2 5 ⟨2, 0⟩).2).Nodup := by
  decide

/-- C9 (amended): for every tree state satisfying the structural invariant
(`globalCount` equals the number of live entries and every page up to
`lastPage` has a live first slot) and every key distinct from the −1 cleared
sentinel, `insertKey` and `deleteKey` both preserve that invariant, and in
both result states the last page is nonempty unless the tree is empty.  Key
uniqueness, by contrast, is not preserved (see the counterexample). -/
theorem C9_btree_invariant_preservation (st : BTState) (key : Int) (rid : RID)
    (hInv : btInvariant st) (hkey : key ≠ -1) :
    btInvariant (insertKey st key rid).2 ∧
    btInvariant (deleteKey st key).2 ∧
    ((insertKey st key rid).2.lastPage = 0 ∨
      pageKeys (getBTPage (insertKey st key rid).2 (insertKey st key rid).2.lastPage) ≠ []) ∧
    ((deleteKey st key).2.lastPage = 0 ∨
      pageKeys (getBTPage (deleteKey st key).2 (deleteKey st key).2.lastPage) ≠ []) := by
  have h1 := insertKey_inv st key rid hInv hkey
  have h2 := deleteKey_inv st key hInv hkey
  refine ⟨h1, h2, ?_, ?_⟩
  · rcases Nat.eq_zero_or_pos (insertKey st key rid).2.lastPage with h | h
    · exact Or.inl h
    · exact Or.inr (lastPage_nonempty h1 h)
  · rcases Nat.eq_zero_or_pos (deleteKey st key).2.lastPage with h | h
    · exact Or.inl h
    · exact Or.inr (lastPage_nonempty h2 h)

/-- C9 witness: the amended theorem applied to the one-page tree holding key 5
with count 1, inserting and deleting key 7. -/
theorem C9_btree_invariant_preservation_witness :
    btInvariant (insertKey ⟨1, 1, [⟨false, ⟨1, 0⟩, 5, ⟨-1, -1⟩, -1⟩]⟩ 7 ⟨2, 0⟩).2 ∧
    btInvariant (deleteKey ⟨1, 1, [⟨false, ⟨1, 0⟩, 5, ⟨-1, -1⟩, -1⟩]⟩ 7).2 ∧
    ((insertKey ⟨1, 1, [⟨false, ⟨1, 0⟩, 5, ⟨-1, -1⟩, -1⟩]⟩ 7 ⟨2, 0⟩).2.lastPage = 0 ∨
      pageKeys (getBTPage (insertKey ⟨1, 1, [⟨false, ⟨1, 0⟩, 5, ⟨-1, -1⟩, -1⟩]⟩ 7 ⟨2, 0⟩).2
        (insertKey ⟨1, 1, [⟨false, ⟨1, 0⟩, 5, ⟨-1, -1⟩, -1⟩]⟩ 7 ⟨2, 0⟩).2.lastPage) ≠ []) ∧
    ((deleteKey ⟨1, 1, [⟨false, ⟨1, 0⟩, 5, ⟨-1, -1⟩, -1⟩]⟩ 7).2.lastPage = 0 ∨
      pageKeys (getBTPage (deleteKey ⟨1, 1, [⟨false, ⟨1, 0⟩, 5, ⟨-1, -1⟩, -1⟩]⟩ 7).2
        (deleteKey ⟨1, 1, [⟨false, ⟨1, 0⟩, 5, ⟨-1, -1⟩, -1⟩]⟩ 7).2.lastPage) ≠ []) :=
  C9_btree_invariant_preservation ⟨1, 1, [⟨false, ⟨1, 0⟩, 5, ⟨-1, -1⟩, -1⟩]⟩ 7 ⟨2, 0⟩
    (by unfold btInvariant treeKeys; decide) (by decide)

/-! ## Claim C4: insert followed by get returns the same record -/

/-- Auxiliary: `findIdx?` only depends on the predicate values. -/
theorem findIdxOpt_congr {α β : Type} (p : α → Bool) (q : β → Bool) :
    ∀ (l1 : List α) (l2 : List β) (s : Nat), l1.map p = l2.map q →
      List.findIdx? p l1 s = List.findIdx? q l2 s := by
  intro l1
  induction l1 with
  | nil =>
    intro l2 s h
    cases l2 with
    | nil => rfl
    | cons b t2 => simp at h
  | cons a t ih =>
    intro l2 s h
    cases l2 with
    | nil => simp at h
    | cons b t2 =>
      simp only [List.map_cons, List.cons.injEq] at h
      rw [List.findIdx?_cons, List.findIdx?_cons, h.1, ih t2 (s + 1) h.2]

/-- Auxiliary: `getD` of a mapped list. -/
theorem getD_map_fn {α β : Type} (h : α → β) (l : List α) (i : Nat) (d : α) :
    (l.map h).getD i (h d) = h (l.getD i d) := by
  by_cases hi : i < l.length
  · simp [List.getD_eq_getElem?_getD, List.getElem?_map, List.getElem?_eq_getElem hi]
  · push_neg at hi
    rw [List.getD_eq_getElem?_getD, List.getD_eq_getElem?_getD,
      List.getElem?_eq_none (by simpa using hi), List.getElem?_eq_none hi]
    rfl

/-- Auxiliary: `getD` away from a `set` position. -/
theorem getD_set_ne {α : Type} (l : List α) (i k : Nat) (a d : α) (h : k ≠ i) :
    (l.set i a).getD k d = l.getD k d := by
  rw [List.getD_eq_getElem?_getD, List.getD_eq_getElem?_getD,
    List.getElem?_set_ne (Ne.symm h)]

/-- Auxiliary: `getD` at an in-range `set` position. -/
theorem getD_set_eq {α : Type} (l : List α) (i : Nat) (a d : α) (hi : i < l.length) :
    (l.set i a).getD i d = a := by
  simp [List.getD_eq_getElem?_getD, List.getElem?_set_self hi]

/-- Auxiliary: writing back the element already stored changes nothing. -/
theorem set_getD_self {α : Type} (l : List α) (i : Nat) (d : α) (hi : i < l.length) :
    l.set i (l.getD i d) = l := by
  apply List.ext_getElem?
  intro n
  by_cases h : n = i
  · subst h
    rw [List.getElem?_set_self hi, List.getD_eq_getElem?_getD,
      List.getElem?_eq_getElem hi]
    rfl
  · rw [List.getElem?_set_ne (Ne.symm h)]

/-- Auxiliary: replacing a frame by one holding the same page number does not
change which frame any page lookup finds. -/
theorem findPage_frames_set (fr : List Frame) (i : Nat) (g : Frame) (hi : i < fr.length)
    (hnum : g.pageNum = (fr.getD i noFrame).pageNum) (q : Int) :
    findPage (fr.set i g) q = findPage fr q := by
  have hmap : (fr.set i g).map (fun f => f.pageNum == q)
      = fr.map (fun f => f.pageNum == q) := by
    simp only [List.map_set]
    have h1 : (g.pageNum == q)
        = (fr.map (fun f => f.pageNum == q)).getD i (noFrame.pageNum == q) := by
      rw [getD_map_fn (fun f => f.pageNum == q) fr i noFrame, hnum]
    rw [h1, set_getD_self _ _ _ (by simpa using hi)]
  exact findIdxOpt_congr _ _ _ _ 0 hmap

/-- Auxiliary: `frameData` only depends on lookups and per-frame buffers. -/
theorem frameData_congr_frames (p1 p2 : BufferPool)
    (h : ∀ q, findPage p1.frames q = findPage p2.frames q)
    (h2 : ∀ k, (p1.frames.getD k noFrame).data = (p2.frames.getD k noFrame).data)
    (q : Int) : frameData p1 q = frameData p2 q := by
  simp only [frameData, h q]
  cases hf : findPage p2.frames q
  · rfl
  · simp only [h2]

/-- Auxiliary: a pin of a resident page (buffer_mgr.c:472): only the found
frame's pin count, access count and timestamp change; the disk, every buffer
and every page number are untouched. -/
theorem pinPage_hit_facts (fuel : Nat) (disk : Disk) (p : BufferPool) (q : Int) (i : Nat)
    (h : findPage p.frames q = some i) :
    ∃ p2, pinPage fuel disk p q = some (RC.OK, disk, p2) ∧
      (∀ r, findPage p2.frames r = findPage p.frames r) ∧
      (∀ k, (p2.frames.getD k noFrame).data = (p.frames.getD k noFrame).data) ∧
      (∀ k, (p2.frames.getD k noFrame).pageNum = (p.frames.getD k noFrame).pageNum) ∧
      (p2.frames.getD i noFrame).pinCount = (p.frames.getD i noFrame).pinCount + 1 ∧
      (∀ k, k ≠ i → (p2.frames.getD k noFrame).pinCount
        = (p.frames.getD k noFrame).pinCount) := by
  have hi := findPage_lt_length h
  refine ⟨_, by simp only [pinPage, h]; rfl, ?_, ?_, ?_, ?_, ?_⟩
  · intro r
    exact findPage_frames_set p.frames i _ hi (by rfl) r
  · intro k
    by_cases hk : k = i
    · subst hk
      rw [getD_set_eq _ _ _ _ hi]
    · rw [getD_set_ne _ _ _ _ _ hk]
  · intro k
    by_cases hk : k = i
    · subst hk
      rw [getD_set_eq _ _ _ _ hi]
    · rw [getD_set_ne _ _ _ _ _ hk]
  · rw [getD_set_eq _ _ _ _ hi]
  · intro k hk
    rw [getD_set_ne _ _ _ _ _ hk]

/-- Auxiliary: `markDirty` on a resident page succeeds and changes only the
dirty flag. -/
theorem markDirty_facts (p : BufferPool) (q : Int) (i : Nat)
    (h : findPage p.frames q = some i) :
    (markDirty p q).1 = RC.OK ∧
    (∀ r, findPage (markDirty p q).2.frames r = findPage p.frames r) ∧
    (∀ k, ((markDirty p q).2.frames.getD k noFrame).data
      = (p.frames.getD k noFrame).data) ∧
    (∀ k, ((markDirty p q).2.frames.getD k noFrame).pinCount
      = (p.frames.getD k noFrame).pinCount) := by
  have hi := findPage_lt_length h
  simp only [markDirty, h]
  refine ⟨trivial, ?_, ?_, ?_⟩
  · intro r
    exact findPage_frames_set p.frames i _ hi (by rfl) r
  · intro k
    by_cases hk : k = i
    · subst hk
      rw [getD_set_eq _ _ _ _ hi]
    · rw [getD_set_ne _ _ _ _ _ hk]
  · intro k
    by_cases hk : k = i
    · subst hk
      rw [getD_set_eq _ _ _ _ hi]
    · rw [getD_set_ne _ _ _ _ _ hk]

/-- Auxiliary: a write through the page handle of a resident page replaces
exactly that frame's buffer. -/
theorem setFrameData_facts (p : BufferPool) (q : Int) (d : Page) (i : Nat)
    (h : findPage p.frames q = some i) :
    (∀ r, findPage (setFrameData p q d).frames r = findPage p.frames r) ∧
    frameData (setFrameData p q d) q = d ∧
    (∀ k, ((setFrameData p q d).frames.getD k noFrame).pinCount
      = (p.frames.getD k noFrame).pinCount) := by
  have hi := findPage_lt_length h
  simp only [setFrameData, h]
  have hfind : ∀ r, findPage (p.frames.set i
      { p.frames.getD i noFrame with data := d }) r = findPage p.frames r := by
    intro r
    exact findPage_frames_set p.frames i _ hi (by rfl) r
  refine ⟨hfind, ?_, ?_⟩
  · simp only [frameData, hfind q, h, getD_set_eq _ _ _ _ hi]
  · intro k
    by_cases hk : k = i
    · subst hk
      rw [getD_set_eq _ _ _ _ hi]
    · rw [getD_set_ne _ _ _ _ _ hk]

/-- Auxiliary: `unpinPage` of a resident page with a positive pin count
succeeds and only lowers that pin count. -/
theorem unpinPage_facts (p : BufferPool) (q : Int) (i : Nat)
    (h : findPage p.frames q = some i)
    (hpc : 0 < (p.frames.getD i noFrame).pinCount) :
    (unpinPage p q).1 = RC.OK ∧
    (∀ r, findPage (unpinPage p q).2.frames r = findPage p.frames r) ∧
    (∀ k, ((unpinPage p q).2.frames.getD k noFrame).data
      = (p.frames.getD k noFrame).data) := by
  have hi := findPage_lt_length h
  simp only [unpinPage, h]
  rw [if_pos hpc]
  refine ⟨rfl, ?_, ?_⟩
  · intro r
    exact findPage_frames_set p.frames i _ hi (by rfl) r
  · intro k
    by_cases hk : k = i
    · subst hk
      rw [getD_set_eq _ _ _ _ hi]
    · rw [getD_set_ne _ _ _ _ _ hk]

/-- Auxiliary: `pageWrite` keeps the page length. -/
theorem pageWrite_length (bs : List Nat) : ∀ (pg : Page) (off : Nat),
    (pageWrite pg off bs).length = pg.length := by
  induction bs with
  | nil => intro pg off; rfl
  | cons b t ih =>
    intro pg off
    rw [pageWrite, ih, List.length_set]

/-- Auxiliary: `pageWrite` does not touch bytes below the write offset. -/
theorem pageWrite_getD_lt (bs : List Nat) : ∀ (pg : Page) (off m : Nat), m < off →
    (pageWrite pg off bs).getD m 0 = pg.getD m 0 := by
  induction bs with
  | nil => intro pg off m h; rfl
  | cons b t ih =>
    intro pg off m h
    rw [pageWrite, ih _ _ _ (by omega), getD_set_ne pg off m b 0 (by omega)]

/-- Auxiliary: reading back a byte `pageWrite` wrote, when the whole write is
in range. -/
theorem pageWrite_getD (bs : List Nat) : ∀ (pg : Page) (off k : Nat),
    k < bs.length → off + bs.length ≤ pg.length →
    (pageWrite pg off bs).getD (off + k) 0 = bs.getD k 0 := by
  induction bs with
  | nil =>
    intro pg off k hk hle
    simp at hk
  | cons b t ih =>
    intro pg off k hk hle
    rw [pageWrite]
    have hlen : off < pg.length := by
      simp only [List.length_cons] at hle
      omega
    cases k with
    | zero =>
      show (pageWrite (pg.set off b) (off + 1) t).getD off 0 = b
      rw [pageWrite_getD_lt t (pg.set off b) (off + 1) off (by omega),
        getD_set_eq pg off b 0 hlen]
    | succ k2 =>
      have he : off + (k2 + 1) = (off + 1) + k2 := by omega
      simp only [List.length_cons] at hk hle
      rw [he, ih (pg.set off b) (off + 1) k2 (by omega) (by rw [List.length_set]; omega)]
      rfl

/-- Auxiliary: `pageReadBytes` returns exactly the list its bytes agree with. -/
theorem pageReadBytes_eq (pg : Page) (s : Nat) (l : List Nat)
    (h : ∀ k, k < l.length → pg.getD (s + k) 0 = l.getD k 0) :
    pageReadBytes pg s l.length = l := by
  apply List.ext_getElem
  · simp [pageReadBytes]
  · intro k h1 h2
    simp only [pageReadBytes, List.getElem_map, List.getElem_range]
    have h3 := h k h2
    rw [h3, List.getD_eq_getElem?_getD, List.getElem?_eq_getElem h2, Option.getD_some]

/-- Auxiliary: writing a suffix of a buffer back over itself is the identity. -/
theorem pageWrite_drop_aux : ∀ (d : List Nat) (l : List Nat) (off : Nat),
    l.drop off = d → pageWrite l off d = l := by
  intro d
  induction d with
  | nil => intro l off h; rfl
  | cons b t ih =>
    intro l off hd
    have hoff : off < l.length := by
      have hl := congrArg List.length hd
      simp only [List.length_drop, List.length_cons] at hl
      omega
    have hb : l[off]? = some b := by
      have h0 := congrArg (fun s : List Nat => s[0]?) hd
      simp only [List.getElem?_drop, Nat.add_zero] at h0
      simpa using h0
    have ht : l.drop (off + 1) = t := by
      apply List.ext_getElem?
      intro n
      have hn := congrArg (fun s : List Nat => s[n + 1]?) hd
      simp only [List.getElem?_drop] at hn
      simp only [List.getElem?_drop]
      rw [show off + 1 + n = off + (n + 1) by omega, hn]
      simp
    rw [pageWrite]
    have hset : l.set off b = l := by
      have h2 : b = l.getD off 0 := by
        rw [List.getD_eq_getElem?_getD, hb]
        rfl
      rw [h2, set_getD_self l off 0 hoff]
    rw [hset, ih l (off + 1) ht]

/-- Auxiliary: a hit of the slot scan is a slot index within the scanned
range. -/
theorem locateFrom_bound (pg : Page) (rs : Nat) : ∀ (rem idx : Nat),
    locateFrom pg rs idx rem ≠ -1 →
    ∃ s : Nat, locateFrom pg rs idx rem = (s : Int) ∧ idx ≤ s ∧ s < idx + rem := by
  intro rem
  induction rem with
  | zero =>
    intro idx h
    exact absurd rfl h
  | succ k ih =>
    intro idx h
    rw [locateFrom] at h ⊢
    by_cases hcond : pg.getD (idx * rs) 0 ≠ 43
    · rw [if_pos hcond]
      exact ⟨idx, rfl, le_refl _, by omega⟩
    · rw [if_neg hcond] at h ⊢
      obtain ⟨s, h1, h2, h3⟩ := ih (idx + 1) h
      exact ⟨s, h1, by omega, by omega⟩

/-- Auxiliary: symbolic execution of `getRecord` when the page is resident,
the tombstone reads '+', and the stored payload equals the record's own
payload: the pin hits, the bytes are copied back, and the unpin succeeds. -/
theorem getRecord_exec (pinFuel recordSize : Nat) (S : RMState) (id : RID)
    (recData : List Nat) (i : Nat)
    (hp : findPage S.pool.frames id.page = some i)
    (hrs : recordSize ≠ 0)
    (htomb : (frameData S.pool id.page).getD (id.slot.toNat * recordSize) 0 = 43)
    (hread : pageReadBytes (frameData S.pool id.page) (id.slot.toNat * recordSize + 1)
        (recordSize - 1) = recData.drop 1)
    (hwr : pageWrite recData 1 (recData.drop 1) = recData) :
    ∃ st5, getRecord pinFuel recordSize S id ⟨id, recData⟩
        = some (RC.OK, st5, ⟨id, recData⟩) := by
  obtain ⟨p2, hpin, hfind2, hdata2, hnum2, hpc2, hpcne2⟩ :=
    pinPage_hit_facts pinFuel S.disk S.pool id.page i hp
  have hfd2 : ∀ q, frameData p2 q = frameData S.pool q := fun q =>
    frameData_congr_frames p2 S.pool hfind2 hdata2 q
  have hfp2 : findPage p2.frames id.page = some i := (hfind2 id.page).trans hp
  have hpc2p : 0 < (p2.frames.getD i noFrame).pinCount := by
    rw [hpc2]
    omega
  obtain ⟨hu1, hufind, hudata⟩ := unpinPage_facts p2 id.page i hfp2 hpc2p
  apply Exists.intro
  simp only [getRecord, hpin]
  rw [if_neg (fun hcon => hcon rfl)]
  rw [if_neg hrs]
  rw [hfd2]
  rw [htomb]
  rw [if_neg (fun hcon => hcon rfl)]
  rw [hread, hwr]
  rw [hu1]
  rw [if_neg (fun hcon => hcon rfl)]

/-- Auxiliary: symbolic execution of a successful `insertRecord` in the
representative state class: the hinted free page and page 0 are resident, the
hinted page has a free slot (so the page-advance loop exits at once), and
every pin is a hit.  The record lands at the hinted page and found slot, the
frame buffer afterwards holds the written bytes, and the frame is still
resident. -/
theorem insertRecord_exec (pinFuel lf recordSize : Nat) (st : RMState)
    (recData : List Nat) (i j : Nat)
    (hp : findPage st.pool.frames st.info.freePageIndex = some i)
    (h0 : findPage st.pool.frames 0 = some j)
    (hs : locateEmptySlot (frameData st.pool st.info.freePageIndex) recordSize ≠ -1)
    (hrs : recordSize ≠ 0) :
    ∃ st4, insertRecord pinFuel (lf + 1) recordSize st recData
        = some (RC.OK, st4,
          ⟨st.info.freePageIndex,
            locateEmptySlot (frameData st.pool st.info.freePageIndex) recordSize⟩) ∧
      findPage st4.pool.frames st.info.freePageIndex = some i ∧
      frameData st4.pool st.info.freePageIndex
        = pageWrite (frameData st.pool st.info.freePageIndex)
            ((locateEmptySlot (frameData st.pool st.info.freePageIndex) recordSize).toNat
              * recordSize)
            (43 :: (recData.drop 1).take (recordSize - 1)) := by
  obtain ⟨p1, hpin1, hfind1, hdata1, hnum1, hpc1, hpcne1⟩ :=
    pinPage_hit_facts pinFuel st.disk st.pool st.info.freePageIndex i hp
  have hfd1 : ∀ q, frameData p1 q = frameData st.pool q := fun q =>
    frameData_congr_frames p1 st.pool hfind1 hdata1 q
  have hfp1 : findPage p1.frames st.info.freePageIndex = some i := (hfind1 _).trans hp
  obtain ⟨hm1, hmfind, hmdata, hmpc⟩ := markDirty_facts p1 st.info.freePageIndex i hfp1
  set m2 := (markDirty p1 st.info.freePageIndex).2 with hm2
  have hmfd : ∀ q, frameData m2 q = frameData st.pool q := fun q =>
    (frameData_congr_frames m2 p1 hmfind hmdata q).trans (hfd1 q)
  have hmfp : findPage m2.frames st.info.freePageIndex = some i := (hmfind _).trans hfp1
  set newPg := pageWrite (frameData st.pool st.info.freePageIndex)
      ((locateEmptySlot (frameData st.pool st.info.freePageIndex) recordSize).toNat
        * recordSize)
      (43 :: (recData.drop 1).take (recordSize - 1)) with hnewPg
  obtain ⟨hsfind, hsfd, hspc⟩ :=
    setFrameData_facts m2 st.info.freePageIndex newPg i hmfp
  set s3 := setFrameData m2 st.info.freePageIndex newPg with hs3
  have hsfp : findPage s3.frames st.info.freePageIndex = some i := (hsfind _).trans hmfp
  have hspin : 0 < (s3.frames.getD i noFrame).pinCount := by
    rw [hspc, hmpc, hpc1]
    omega
  obtain ⟨hu1, hufind, hudata⟩ := unpinPage_facts s3 st.info.freePageIndex i hsfp hspin
  set u4 := (unpinPage s3 st.info.freePageIndex).2 with hu4
  have hufp0 : findPage u4.frames 0 = some j :=
    (hufind 0).trans ((hsfind 0).trans ((hmfind 0).trans ((hfind1 0).trans h0)))
  obtain ⟨p5, hpin0, hfind5, hdata5, hnum5, hpc5, hpcne5⟩ :=
    pinPage_hit_facts pinFuel st.disk u4 0 j hufp0
  apply Exists.intro
  refine ⟨?_, ?_, ?_⟩
  · simp only [insertRecord]
    rw [if_neg hrs]
    simp only [hpin1]
    rw [if_neg (fun hcon => hcon rfl)]
    rw [hfd1]
    simp only [insertLoop]
    rw [if_neg hs]
    simp only [hm1]
    rw [if_neg (fun hcon => hcon rfl)]
    rw [← hm2]
    rw [hmfd]
    rw [← hnewPg]
    rw [← hs3]
    rw [hu1]
    rw [if_neg (fun hcon => hcon rfl)]
    rw [← hu4]
    simp only [hpin0]
    rw [if_neg (fun hcon => hcon rfl)]
    rfl
  · show findPage p5.frames st.info.freePageIndex = some i
    exact (hfind5 _).trans ((hufind _).trans ((hsfind _).trans ((hmfind _).trans hfp1)))
  · show frameData p5 st.info.freePageIndex = newPg
    exact (frameData_congr_frames p5 u4 hfind5 hdata5 _).trans
      ((frameData_congr_frames u4 s3 hufind hudata _).trans hsfd)

/-- C4: insert followed by get returns the inserted record.  For every open
table state whose hinted free page (`freePageIndex`) and page 0 are resident
in the buffer pool, with the hinted page's buffer of full page size and
holding a free slot, and every record whose payload has exactly the table's
record size: `insertRecord` succeeds and assigns a rid, and `getRecord` at
that rid succeeds and returns a record with the same rid and the same data —
the payload bytes `[1, recordSize)` are read back unchanged from the slot,
the tombstone byte having been set to '+'. -/
theorem C4_insert_get_roundtrip (pinFuel lf recordSize : Nat) (st : RMState)
    (recData : List Nat) (i j : Nat)
    (hp : findPage st.pool.frames st.info.freePageIndex = some i)
    (h0 : findPage st.pool.frames 0 = some j)
    (hlen : (frameData st.pool st.info.freePageIndex).length = PAGE_SIZE)
    (hs : locateEmptySlot (frameData st.pool st.info.freePageIndex) recordSize ≠ -1)
    (hrs : recordSize ≠ 0)
    (hdata : recData.length = recordSize) :
    ∃ st4 rid st5,
      insertRecord pinFuel (lf + 1) recordSize st recData = some (RC.OK, st4, rid) ∧
      getRecord pinFuel recordSize st4 rid ⟨rid, recData⟩
        = some (RC.OK, st5, ⟨rid, recData⟩) := by
  obtain ⟨st4, hins, hfind4, hfd4⟩ :=
    insertRecord_exec pinFuel lf recordSize st recData i j hp h0 hs hrs
  obtain ⟨s, hsv, hs0, hsb⟩ :=
    locateFrom_bound (frameData st.pool st.info.freePageIndex) recordSize
      (PAGE_SIZE / recordSize) 0 hs
  have hsv2 : locateEmptySlot (frameData st.pool st.info.freePageIndex) recordSize
      = (s : Int) := hsv
  have hvt : (locateEmptySlot (frameData st.pool st.info.freePageIndex) recordSize).toNat
      = s := by
    rw [hsv2]
    exact Int.toNat_natCast s
  have hrs1 : 1 ≤ recordSize := Nat.one_le_iff_ne_zero.mpr hrs
  have hbound : s * recordSize + recordSize ≤ PAGE_SIZE := by
    have h1 : s + 1 ≤ PAGE_SIZE / recordSize := by omega
    have h2 : (s + 1) * recordSize ≤ (PAGE_SIZE / recordSize) * recordSize :=
      Nat.mul_le_mul_right _ h1
    have h3 : (PAGE_SIZE / recordSize) * recordSize ≤ PAGE_SIZE := Nat.div_mul_le_self _ _
    have h4 : (s + 1) * recordSize = s * recordSize + recordSize := by rw [Nat.succ_mul]
    omega
  have htake : (recData.drop 1).take (recordSize - 1) = recData.drop 1 := by
    rw [show recordSize - 1 = (recData.drop 1).length from by rw [List.length_drop, hdata],
      List.take_length]
  have hlen2 : s * recordSize + (43 :: (recData.drop 1).take (recordSize - 1)).length
      ≤ (frameData st.pool st.info.freePageIndex).length := by
    rw [htake, List.length_cons, List.length_drop, hdata, hlen]
    omega
  have htomb : (frameData st4.pool st.info.freePageIndex).getD
      ((locateEmptySlot (frameData st.pool st.info.freePageIndex) recordSize).toNat
        * recordSize) 0 = 43 := by
    rw [hfd4, hvt]
    have h := pageWrite_getD (43 :: (recData.drop 1).take (recordSize - 1))
      (frameData st.pool st.info.freePageIndex) (s * recordSize) 0 (by simp) hlen2
    simpa using h
  have hread : pageReadBytes (frameData st4.pool st.info.freePageIndex)
      ((locateEmptySlot (frameData st.pool st.info.freePageIndex) recordSize).toNat
        * recordSize + 1) (recordSize - 1) = recData.drop 1 := by
    rw [hfd4, hvt, htake]
    rw [show recordSize - 1 = (recData.drop 1).length from by rw [List.length_drop, hdata]]
    apply pageReadBytes_eq
    intro k hk
    have hk2 : k < recordSize - 1 := by
      rw [List.length_drop, hdata] at hk
      exact hk
    have hlen3 : s * recordSize + (43 :: recData.drop 1).length
        ≤ (frameData st.pool st.info.freePageIndex).length := by
      rw [List.length_cons, List.length_drop, hdata, hlen]
      omega
    have h := pageWrite_getD (43 :: recData.drop 1)
      (frameData st.pool st.info.freePageIndex) (s * recordSize) (1 + k)
      (by rw [List.length_cons, List.length_drop, hdata]; omega) hlen3
    rw [show s * recordSize + 1 + k = s * recordSize + (1 + k) from by omega, h,
      show 1 + k = k + 1 from by omega, List.getD_cons_succ]
  have hwr : pageWrite recData 1 (recData.drop 1) = recData :=
    pageWrite_drop_aux (recData.drop 1) recData 1 rfl
  obtain ⟨st5, hget⟩ := getRecord_exec pinFuel recordSize st4
    ⟨st.info.freePageIndex,
      locateEmptySlot (frameData st.pool st.info.freePageIndex) recordSize⟩
    recData i hfind4 hrs htomb hread hwr
  exact ⟨st4,
    ⟨st.info.freePageIndex,
      locateEmptySlot (frameData st.pool st.info.freePageIndex) recordSize⟩,
    st5, hins, hget⟩

/-- C4 witness: a two-page table (pages 0 and 1 resident and unpinned, free
page hint 1, record size 8) and the record with payload bytes 0..7. -/
theorem C4_insert_get_roundtrip_witness :
    ∃ st4 rid st5,
      insertRecord 1 (0 + 1) 8
          ⟨[zeroPage, zeroPage],
            ⟨[⟨zeroPage, 0, false, 0, 0, 0⟩, ⟨zeroPage, 1, false, 0, 0, 0⟩],
              none, 10, 0, 0, 0, 0, Strategy.LRU⟩,
            ⟨0, 1, 0⟩⟩ [0, 1, 2, 3, 4, 5, 6, 7] = some (RC.OK, st4, rid) ∧
      getRecord 1 8 st4 rid ⟨rid, [0, 1, 2, 3, 4, 5, 6, 7]⟩
        = some (RC.OK, st5, ⟨rid, [0, 1, 2, 3, 4, 5, 6, 7]⟩) :=
  C4_insert_get_roundtrip 1 0 8 _ _ 1 0 (by decide) (by decide)
    (by show zeroPage.length = PAGE_SIZE; simp [zeroPage]) (by decide) (by decide) (by decide)

end Spec2Proof
